import Mathlib

/-!
Verification of `wolf_comm/wolf_client.py` (the `WolfClient` class).

The Python module is embedded shallowly:

* JSON-like payloads become the inductive type `JVal`; Python `dict`s are
  ordered field lists (insertion order preserved, keys assumed distinct, as
  produced by JSON parsing), Python `None` is `JVal.null`.
* Stateful methods become pure functions that take the relevant instance
  state and return the new state together with a trace of the externally
  visible calls they made.
* External collaborators that are not part of this repository's source
  (the HTTP transport, `json.loads`, `re.search`, the token/session
  endpoints) are modelled as oracle parameters or explicit state
  transitions, following the spec's description of them as opaque.
* Fallible code returns `Option`/`Except`.
-/

namespace Wolf

/-- A JSON value, as produced by Python's `json` module: `null`/`None`,
booleans, strings, numbers (modelled as integers), objects (ordered field
lists) and arrays. -/
inductive JVal where
  | null : JVal
  | bool (b : Bool) : JVal
  | str (s : String) : JVal
  | num (n : Int) : JVal
  | obj (fields : List (String × JVal)) : JVal
  | arr (items : List JVal) : JVal
  deriving Repr

mutual

/-- Structural equality of JSON values (Python `==` on parsed JSON). -/
def jeq : JVal → JVal → Bool
  | .null, .null => true
  | .bool a, .bool b => a = b
  | .str a, .str b => a = b
  | .num a, .num b => a = b
  | .obj fs, .obj gs => jeqFields fs gs
  | .arr xs, .arr ys => jeqItems xs ys
  | _, _ => false

/-- Structural equality of JSON object field lists. -/
def jeqFields : List (String × JVal) → List (String × JVal) → Bool
  | [], [] => true
  | (k, v) :: r, (k', v') :: r' => k = k' && jeq v v' && jeqFields r r'
  | _, _ => false

/-- Structural equality of JSON arrays. -/
def jeqItems : List JVal → List JVal → Bool
  | [], [] => true
  | v :: r, v' :: r' => jeq v v' && jeqItems r r'
  | _, _ => false

end

mutual

theorem jeq_iff : ∀ a b : JVal, jeq a b = true ↔ a = b
  | .null, .null => by simp [jeq]
  | .bool a, .bool b => by simp [jeq]
  | .str a, .str b => by simp [jeq]
  | .num a, .num b => by simp [jeq]
  | .obj fs, .obj gs => by simp [jeq, jeqFields_iff fs gs]
  | .arr xs, .arr ys => by simp [jeq, jeqItems_iff xs ys]
  | .null, .bool _ | .null, .str _ | .null, .num _ | .null, .obj _ | .null, .arr _
  | .bool _, .null | .bool _, .str _ | .bool _, .num _ | .bool _, .obj _ | .bool _, .arr _
  | .str _, .null | .str _, .bool _ | .str _, .num _ | .str _, .obj _ | .str _, .arr _
  | .num _, .null | .num _, .bool _ | .num _, .str _ | .num _, .obj _ | .num _, .arr _
  | .obj _, .null | .obj _, .bool _ | .obj _, .str _ | .obj _, .num _ | .obj _, .arr _
  | .arr _, .null | .arr _, .bool _ | .arr _, .str _ | .arr _, .num _ | .arr _, .obj _ =>
      by simp [jeq]

theorem jeqFields_iff : ∀ a b : List (String × JVal), jeqFields a b = true ↔ a = b
  | [], [] => by simp [jeqFields]
  | (k, v) :: r, (k', v') :: r' => by
      simp [jeqFields, jeq_iff v v', jeqFields_iff r r', Prod.ext_iff, and_assoc]
  | [], _ :: _ => by simp [jeqFields]
  | _ :: _, [] => by simp [jeqFields]

theorem jeqItems_iff : ∀ a b : List JVal, jeqItems a b = true ↔ a = b
  | [], [] => by simp [jeqItems]
  | v :: r, v' :: r' => by simp [jeqItems, jeq_iff v v', jeqItems_iff r r']
  | [], _ :: _ => by simp [jeqItems]
  | _ :: _, [] => by simp [jeqItems]

end

instance : DecidableEq JVal := fun a b => decidable_of_iff _ (jeq_iff a b)

/-- `fs[k]` lookup on a Python dict modelled as an ordered field list:
the first field with key `k`. -/
def getField (fs : List (String × JVal)) (k : String) : Option JVal :=
  (fs.find? (fun f => f.1 = k)).map (fun f => f.2)

/-- `fs[k] = v` assignment on a Python dict: replace the value of the first
field with key `k`, keeping its position, or append the field if absent. -/
def setField (fs : List (String × JVal)) (k : String) (v : JVal) :
    List (String × JVal) :=
  match fs with
  | [] => [(k, v)]
  | (k', v') :: rest =>
      if k' = k then (k, v) :: rest else (k', v') :: setField rest k v

/-- `descriptor["BundleId"] = bundleId` from
`WolfClient._extract_parameter_descriptors`: set the `"BundleId"` field of a
descriptor object.  On a non-object the Python code would raise `TypeError`;
descriptor arrays are assumed to hold objects, and a non-object is returned
unchanged. -/
def objSetBundle (b : JVal) : JVal → JVal
  | .obj fs => .obj (setField fs "BundleId" b)
  | .null => .null
  | .bool bb => .bool bb
  | .str s => .str s
  | .num n => .num n
  | .arr xs => .arr xs

/-! ## Constants

The string constants imported from `wolf_comm/constants.py`, which is not
part of the given source tree.  `"ParameterDescriptors"`, `"BundleId"` and
`"ValueId"` appear literally in `wolf_client.py`; the remaining values are
modelled from the spec, and only their pairwise distinctness matters. -/

/-- Modelled from the spec: the `CELSIUS_TEMPERATURE` unit tag from
`wolf_comm/constants.py` (not under `src/`). -/
def CELSIUS_TEMPERATURE : String := "Celsius"

/-- Modelled from the spec: the `BAR` unit tag from `wolf_comm/constants.py`. -/
def BAR : String := "Bar"

/-- Modelled from the spec: the `PERCENTAGE` unit tag from `wolf_comm/constants.py`. -/
def PERCENTAGE : String := "Percentage"

/-- Modelled from the spec: the `HOUR` unit tag from `wolf_comm/constants.py`. -/
def HOUR : String := "Hour"

/-- Modelled from the spec: the `KILOWATT` unit tag from `wolf_comm/constants.py`. -/
def KILOWATT : String := "Kilowatt"

/-- Modelled from the spec: the `KILOWATTHOURS` unit tag from `wolf_comm/constants.py`. -/
def KILOWATTHOURS : String := "KilowattHours"

/-- Modelled from the spec: the `RPM` unit tag from `wolf_comm/constants.py`. -/
def RPM : String := "RPM"

/-- Modelled from the spec: the `FLOW` unit tag from `wolf_comm/constants.py`. -/
def FLOW : String := "Flow"

/-- Modelled from the spec: the `FREQUENCY` unit tag from `wolf_comm/constants.py`. -/
def FREQUENCY : String := "Frequency"

/-- Modelled from the spec: the known "parameter read" server error message
`ERROR_READ_PARAMETER` from `wolf_comm/constants.py`; its exact text is
irrelevant, only equality with a response's error message is tested. -/
def ERROR_READ_PARAMETER : String := "ErrorReadParameter"

/-! ## Parameter model

`wolf_comm/models.py` is not part of the given source tree.  Modelled from
the spec's data model: a `Parameter` has shared fields (value id, display
name, parent/tab name, parameter id, bundle id, read-only flag) and a
variant determined by the physical unit, by a list-items payload, or
neither. -/

/-- Modelled from the spec: one `{value, displayText}` entry of a list-item
parameter (`ListItem` in `wolf_comm/models.py`). -/
structure LItem where
  value : JVal
  displayText : JVal
  deriving DecidableEq, Repr

/-- Modelled from the spec: the variant of a parameter — the subtype of the
`Parameter` class hierarchy of `wolf_comm/models.py`, represented as a tag. -/
inductive ParamKind where
  | temperature
  | pressure
  | percentage
  | hours
  | power
  | energy
  | rpm
  | flow
  | frequency
  | listItem (items : List LItem)
  | simple
  deriving DecidableEq, Repr

/-- Modelled from the spec: a typed parameter (the `Parameter` class of
`wolf_comm/models.py`).  `bundle_id` and `read_only` keep the raw JSON
values the descriptor carried (Python stores them untyped). -/
structure Parameter where
  value_id : Int
  name : String
  parent : Option String
  parameter_id : JVal
  bundle_id : JVal
  read_only : JVal
  kind : ParamKind
  deriving DecidableEq, Repr

/-- A raw parameter descriptor as read from the GUI description payload:
the fields of the Python `dict` handed to `WolfClient._map_parameter`.
`valueId`, `name` and `parameterId` are required (Python would raise
`KeyError` when absent); the rest are optional, `none` meaning the key is
absent from the dict. -/
structure Descriptor where
  valueId : Int
  name : String
  parameterId : JVal
  bundleId : Option JVal
  isReadOnly : Option JVal
  unit : Option JVal
  listItems : Option (List LItem)
  deriving DecidableEq, Repr

/-- `WolfClient._map_parameter` (wolf_client.py lines 343-376).  A unit tag
is compared against the unit constants in order; a present but unrecognized
unit (or a non-string unit value) falls off the `if`/`elif` chain and the
Python function implicitly returns `None`, modelled as `none`.  The
`elif LIST_ITEMS` branch is only reached when no `UNIT` key is present. -/
def map_parameter (p : Descriptor) (parent : Option String) : Option Parameter :=
  let bundle_id := p.bundleId.getD (.str "1000")
  let readonly := p.isReadOnly.getD (.bool true)
  let mk : ParamKind → Parameter := fun kind =>
    { value_id := p.valueId, name := p.name, parent := parent,
      parameter_id := p.parameterId, bundle_id := bundle_id,
      read_only := readonly, kind := kind }
  match p.unit with
  | some u =>
      match u with
      | .str s =>
          if s = CELSIUS_TEMPERATURE then some (mk .temperature)
          else if s = BAR then some (mk .pressure)
          else if s = PERCENTAGE then some (mk .percentage)
          else if s = HOUR then some (mk .hours)
          else if s = KILOWATT then some (mk .power)
          else if s = KILOWATTHOURS then some (mk .energy)
          else if s = RPM then some (mk .rpm)
          else if s = FLOW then some (mk .flow)
          else if s = FREQUENCY then some (mk .frequency)
          else none
      | _ => none
  | none =>
      match p.listItems with
      | some items => some (mk (.listItem items))
      | none => some (mk .simple)

/-! ## Client construction (`WolfClient.__init__`, lines 44-52) -/

/-- The HTTP-client configuration a constructed `WolfClient` ends up with:
an externally supplied client instance, a client factory, or the default
`httpx.AsyncClient()` created when neither is supplied. -/
inductive ClientCfg (C : Type) where
  | external (c : C)
  | factory (f : Unit → C)
  | default

/-- The client/client_lambda validation of `WolfClient.__init__`
(wolf_client.py lines 44-52): both supplied raises `RuntimeError`; exactly
one supplied stores it; neither supplied stores a fresh default
`httpx.AsyncClient()`. -/
def initClient {C : Type} (client : Option C) (client_lambda : Option (Unit → C)) :
    Except String (ClientCfg C) :=
  match client, client_lambda with
  | some _, some _ => .error "Only one of client and client_lambda is allowed!"
  | some c, none => .ok (.external c)
  | none, some f => .ok (.factory f)
  | none, none => .ok .default

/-! ## Request execution and the session lifecycle
(`WolfClient.__request`, `WolfClient.__authorize_and_session`,
wolf_client.py lines 64-112)

Time is modelled as a natural number instant `now`, constant for the
duration of one request (`datetime.datetime.now()`).  The token and
session endpoints (`wolf_comm/token_auth.py`, `wolf_comm/create_session.py`,
not under `src/`) are modelled from the spec as an oracle `auth` giving the
token/session pair produced by the k-th `__authorize_and_session` call of
the request, and an `update_session` keep-alive call that is recorded in
the trace but has no client-visible state effect. -/

/-- Modelled from the spec: a token pair from the Token Provider
(`wolf_comm/token_auth.py`, not under `src/`): an access token plus the
result its `is_expired()` check would report. -/
structure TokensM where
  access_token : Nat
  expired : Bool
  deriving DecidableEq, Repr

/-- The result of one `__authorize_and_session` call: fresh tokens and a
fresh session id. -/
structure AuthData where
  tokens : TokensM
  session : Nat
  deriving DecidableEq, Repr

/-- The mutable `WolfClient` instance state touched by `__request`. -/
structure WolfSt where
  tokens : Option TokensM
  session_id : Option Nat
  last_session_refesh : Option Nat
  last_failed : Bool
  deriving DecidableEq, Repr

/-- An externally visible call made while executing `__request`:
an `__authorize_and_session` transition, an `update_session` keep-alive,
or one HTTP execution of the request itself (`__execute`). -/
inductive REvent where
  | auth
  | update
  | exec
  deriving DecidableEq, Repr

/-- Outcome of the retried `__execute(...)  .json()` on the 401/500 path.
Exceptions other than `FetchFailed` (transport errors, malformed JSON) are
out of the model's scope, as the spec places the HTTP transport out of
scope. -/
inductive RetryOut where
  | ok (payload : JVal)
  | fetchFailed
  deriving DecidableEq, Repr

deriving instance DecidableEq for Except

/-- The observable result of one `__request` run: the final instance state,
the sequence of external calls in order, and either the parsed JSON body or
the propagated `FetchFailed` error. -/
structure ReqTrace where
  state : WolfSt
  events : List REvent
  result : Except Unit JVal
  deriving DecidableEq, Repr

/-- `WolfClient.__authorize_and_session` (lines 107-112): fetch fresh
tokens, open a fresh session and reset the refresh deadline to `now + 60`. -/
def authorize_and_session (d : AuthData) (now : Nat) (st : WolfSt) : WolfSt :=
  { st with
      tokens := some d.tokens
      session_id := some d.session
      last_session_refesh := some (now + 60) }

/-- `WolfClient.__request` (lines 64-98).  `auth k` is the token/session
pair the k-th `__authorize_and_session` call of this request produces;
`firstStatus`/`firstPayload` are the status code and JSON body of the first
`__execute`; `retry` is the outcome of the retried execution, consulted
only on the 401/500 path. -/
def wolfRequest (auth : Nat → AuthData) (now : Nat) (st : WolfSt)
    (firstStatus : Nat) (firstPayload : JVal) (retry : RetryOut) : ReqTrace :=
  -- lines 65-66: lazy authorization when tokens are absent or expired
  let lazyAuth : Bool :=
    match st.tokens with
    | none => true
    | some t => t.expired
  let st1 := if lazyAuth then authorize_and_session (auth 0) now st else st
  let ev1 : List REvent := if lazyAuth then [.auth] else []
  -- lines 71-79: session keep-alive when the refresh deadline has elapsed
  let refreshDue : Bool :=
    match st1.last_session_refesh with
    | none => true
    | some d => d ≤ now
  let st2 := if refreshDue then { st1 with last_session_refesh := some (now + 60) } else st1
  let ev2 : List REvent := if refreshDue then [.update] else []
  -- line 85: first execution
  if firstStatus = 401 ∨ firstStatus = 500 then
    -- lines 86-95: re-authorize and retry exactly once
    let st3 := authorize_and_session (auth (if lazyAuth then 1 else 0)) now st2
    match retry with
    | .ok payload =>
        { state := st3
          events := ev1 ++ ev2 ++ [.exec, .auth, .exec]
          result := .ok payload }
    | .fetchFailed =>
        { state := { st3 with last_failed := true }
          events := ev1 ++ ev2 ++ [.exec, .auth, .exec]
          result := .error () }
  else
    -- lines 96-98: any other status parses and returns, clearing the flag
    { state := { st2 with last_failed := false }
      events := ev1 ++ ev2 ++ [.exec]
      result := .ok firstPayload }

/-- Number of `__authorize_and_session` calls in a trace. -/
def ReqTrace.authCalls (t : ReqTrace) : Nat := t.events.count .auth

/-- Number of `update_session` keep-alive calls in a trace. -/
def ReqTrace.updateCalls (t : ReqTrace) : Nat := t.events.count .update

/-- Number of `__execute` HTTP executions in a trace. -/
def ReqTrace.execCalls (t : ReqTrace) : Nat := t.events.count .exec

/-! ## String splitting helpers

Python's `str.split` is embedded as structural recursion over character
lists, specialised to the separators the source uses: the fixed separator
token `SPLIT = "---"` (with `maxsplit=2`), `"_"` (unbounded, for the
localization key) and `"\n"` (unbounded, for the JSON repair loop).
Splitting consumes separator occurrences greedily left to right, exactly
like Python. -/

/-- The `SPLIT` separator token (wolf_client.py line 22). -/
def SPLIT : String := "---"

/-- `s.split("---", maxsplit)`: `n` is the number of splits still allowed;
`acc` holds the (reversed) characters of the segment being scanned. -/
def splitDashAux : Nat → List Char → List Char → List (List Char)
  | n + 1, '-' :: '-' :: '-' :: rest, acc => acc.reverse :: splitDashAux n rest []
  | n, c :: rest, acc => splitDashAux n rest (c :: acc)
  | _, [], acc => [acc.reverse]

/-- Python `name.split(SPLIT, 2)` (wolf_client.py line 159). -/
def pySplitDash2 (s : String) : List String :=
  (splitDashAux 2 s.data []).map fun cs => String.mk cs

/-- Python `s.split(sep)` (unbounded) for a one-character separator,
over character lists: split at every occurrence of `sep`, greedily left to
right; `acc` holds the (reversed) characters of the segment being
scanned. -/
def splitCharAux (sep : Char) : List Char → List Char → List (List Char)
  | c :: rest, acc =>
      if c = sep then acc.reverse :: splitCharAux sep rest []
      else splitCharAux sep rest (c :: acc)
  | [], acc => [acc.reverse]

/-- Python `s.split("_")` on a string. -/
def pySplitUnd (s : String) : List String :=
  (splitCharAux '_' s.data []).map fun cs => String.mk cs

/-- Python `s.count("_")`. -/
def countUnd (s : String) : Nat := s.data.count '_'

/-- Python `text.split("\n")` on a string. -/
def splitNL (s : String) : List String :=
  (splitCharAux '\n' s.data []).map fun cs => String.mk cs

/-- Python `"\n".join(lines)`. -/
def joinNL : List String → String
  | [] => ""
  | [x] => x
  | x :: y :: rest => x ++ "\n" ++ joinNL (y :: rest)

/-! ## Localization (`extract_messages_json`, `try_and_parse`,
`load_localized_json`, `replace_with_localized_text`,
wolf_client.py lines 206-209 and 217-269) -/

/-- What `try_and_parse` can hand back: the parsed messages mapping, or —
when the retry budget is exhausted — the current (line-stripped) text
itself.  Python returns these as `dict` and `str` respectively. -/
inductive PResult where
  | parsed (m : List (String × String))
  | unparsed (t : String)
  deriving DecidableEq, Repr

/-- Lines 234-241 of `try_and_parse`: split the text into lines, drop the
line the parser's error location reports (1-based `lineno`, so index
`lineno - 1`) when that index is in range, and rejoin. -/
def stripLine (text : String) (lineno : Nat) : String :=
  let line := lineno - 1
  let text_lines := splitNL text
  let text_lines' :=
    if line < text_lines.length then text_lines.eraseIdx line else text_lines
  joinNL text_lines'

/-- `WolfClient.try_and_parse(text, times)` (lines 227-242).  `parse`
models `json.loads` restricted to the flat string-to-string messages
object: `.ok m` is a successful parse and `.error lineno` a
`json.JSONDecodeError` carrying its 1-based `lineno`.  On failure the
offending line is removed and parsing retried with a decremented budget;
a budget of `0` returns the current text unparsed. -/
def try_and_parse (parse : String → Except Nat (List (String × String)))
    (text : String) : Nat → PResult
  | 0 => .unparsed text
  | times + 1 =>
      match parse text with
      | .ok m => .parsed m
      | .error lineno => try_and_parse parse (stripLine text lineno) times

/-- `WolfClient.extract_messages_json(text)` (lines 217-225).  `reSearch`
models the stdlib call
`re.search(r"messages:\s*({.*?})\s*}", text, re.DOTALL)`, returning the
first capture group when the marker matches and `none` otherwise. -/
def extract_messages_json (reSearch : String → Option String)
    (parse : String → Except Nat (List (String × String))) (text : String) :
    Option PResult :=
  match reSearch text with
  | some group => some (try_and_parse parse group 1000)
  | none => none

/-- The tail of `WolfClient.load_localized_json` (lines 261-269): the new
value of `self.regional` given its old value and the extraction result —
unchanged when extraction produced `None`, overwritten otherwise. -/
def load_localized_json (regional : Option PResult) (extracted : Option PResult) :
    Option PResult :=
  match extracted with
  | some r => some r
  | none => regional

/-- `WolfClient.replace_with_localized_text(text)` (lines 206-209).
`regional` holds whatever the last successful extraction stored: `none`
(never loaded), a parsed mapping, or — after an exhausted repair loop — a
plain string, in which case Python's `text in self.regional` is a substring
test and the subsequent indexing `self.regional[text]` raises `TypeError`,
modelled as `none`. -/
def replace_with_localized_text (regional : Option PResult) (text : String) :
    Option String :=
  match regional with
  | none => some text
  | some (.parsed m) =>
      match m.find? (fun kv => kv.1 = text) with
      | some kv => some kv.2
      | none => some text
  | some (.unparsed s) =>
      if text.data <:+: s.data then none else some text

/-! ## Display-name derivation and the flatten/de-duplicate loop
(`WolfClient.fetch_parameters` lines 152-185,
`WolfClient.fix_duplicated_parameters` lines 187-204) -/

/-- The display-name derivation applied to each flattened parameter
(wolf_client.py lines 159-173): split the raw name on `SPLIT` with
`maxsplit=2`; on exactly two parts, localize the first part's second
`"_"`-segment (or the whole first part when it has no underscore) and the
second part, joined by one space; otherwise localize the whole raw name.
`none` propagates a lookup `TypeError` (possible only when `regional`
holds an unparsed string). -/
def deriveName (regional : Option PResult) (name : String) : Option String :=
  let spaceSplit := pySplitDash2 name
  match spaceSplit with
  | [p0, p1] =>
      let key := if countUnd p0 > 0 then (pySplitUnd p0).getD 1 "" else p0
      match replace_with_localized_text regional key,
            replace_with_localized_text regional p1 with
      | some x, some y => some (x ++ " " ++ y)
      | _, _ => none
  | _ => replace_with_localized_text regional name

/-- The inner flatten loop body of `fetch_parameters` (lines 154-183) over
one sublist: skip `None` entries, rename each parameter via `deriveName`,
and append it (and its value id) only when its value id has not been seen.
The state is the pair `(distinct_ids, flattened)`. -/
def flattenInner (regional : Option PResult) :
    List (Option Parameter) → List Int → List Parameter →
    Option (List Int × List Parameter)
  | [], ids, acc => some (ids, acc)
  | none :: rest, ids, acc => flattenInner regional rest ids acc
  | some val :: rest, ids, acc =>
      match deriveName regional val.name with
      | none => none
      | some nm =>
          let val' := { val with name := nm }
          if val'.value_id ∈ ids then flattenInner regional rest ids acc
          else flattenInner regional rest (ids ++ [val'.value_id]) (acc ++ [val'])

/-- The outer flatten loop of `fetch_parameters` (line 154): iterate the
per-view sublists, threading `(distinct_ids, flattened)`. -/
def flattenOuter (regional : Option PResult) :
    List (List (Option Parameter)) → List Int → List Parameter →
    Option (List Int × List Parameter)
  | [], ids, acc => some (ids, acc)
  | sub :: rest, ids, acc =>
      match flattenInner regional sub ids acc with
      | none => none
      | some (ids', acc') => flattenOuter regional rest ids' acc'

/-- The flatten-and-deduplicate pass of `fetch_parameters` (lines 152-183):
run the nested loops on the (already reversed) list of per-view results,
starting from empty `distinct_ids`/`flattened`. -/
def flatten_dedup (regional : Option PResult)
    (result : List (List (Option Parameter))) : Option (List Parameter) :=
  (flattenOuter regional result [] []).map fun p => p.2

/-- The recursion of `WolfClient.fix_duplicated_parameters` (lines 187-204)
with `seen` as the set of value ids already kept. -/
def fixDupGo (seen : List Int) : List (Option Parameter) → List Parameter
  | [] => []
  | none :: rest => fixDupGo seen rest
  | some p :: rest =>
      if p.value_id ∈ seen then fixDupGo seen rest
      else p :: fixDupGo (p.value_id :: seen) rest

/-- `WolfClient.fix_duplicated_parameters(parameters)` (lines 187-204):
skip `None` entries and keep only the first parameter for each value id. -/
def fix_duplicated_parameters (parameters : List (Option Parameter)) : List Parameter :=
  fixDupGo [] parameters

/-! ## Value fetching (`WolfClient.fetch_value`, wolf_client.py lines 272-313)

The `api/portal/GetParameterValues` endpoint is modelled as an oracle from
the request's bundle id to the server's JSON response (each bundle id is
requested at most once per call, so the bundle id determines the
response).  Gateway id, system id and session id are carried by every
request identically and play no role in the claims, so they are omitted
from the request record. -/

/-- One entry of a `GetParameterValues` response's `Values` array.
`ValueId` and `State` are required (Python would raise `KeyError` when
constructing `Value` otherwise); `value = none` means the `Value` key is
absent — a present JSON `null` is `some JVal.null`. -/
structure RespEntry where
  valueId : JVal
  value : Option JVal
  state : JVal
  deriving DecidableEq, Repr

/-- A `GetParameterValues` response.  `errorCode`/`errorType`/`errorMessage`
are `none` when the corresponding key is absent; `values` and `lastAccess`
are read only on the non-error path. -/
structure PVResponse where
  errorCode : Option String
  errorType : Option String
  errorMessage : Option String
  values : List RespEntry
  lastAccess : Option JVal
  deriving DecidableEq, Repr

/-- The JSON body of one `GetParameterValues` request, restricted to the
fields that vary per bundle (lines 285-294). -/
structure PVRequest where
  bundleId : JVal
  bundle : Bool
  valueIdList : List Int
  guiIdChanged : Bool
  lastAccess : Option JVal
  deriving DecidableEq, Repr

/-- A `Value` produced from a response entry
(`Value(v[VALUE_ID], v[VALUE], v[STATE])`, lines 305-309).  Modelled from
the spec: the `Value` class lives in `wolf_comm/models.py`, not under
`src/`. -/
structure ValueM where
  value_id : JVal
  value : JVal
  state : JVal
  deriving DecidableEq, Repr

/-- The error raised by `fetch_value` on a response carrying an error
payload (lines 299-303); the formatted message text is not modelled. -/
inductive FvErr where
  | parameterRead
  | fetchFailed
  deriving DecidableEq, Repr

/-- `res` carries an error payload: `ERROR_CODE in res or ERROR_TYPE in res`
(line 299). -/
def hasError (res : PVResponse) : Bool :=
  res.errorCode.isSome || res.errorType.isSome

/-- Error classification of lines 300-303: the distinguished read error
when the error message equals `ERROR_READ_PARAMETER`, a generic
`FetchFailed` otherwise. -/
def classifyError (res : PVResponse) : FvErr :=
  if res.errorMessage = some ERROR_READ_PARAMETER then .parameterRead else .fetchFailed

/-- The values merged from one response: entries with a `Value` key, in
order (lines 305-309). -/
def mergeVals (res : PVResponse) : List ValueM :=
  res.values.filterMap fun v => v.value.map fun x => ⟨v.valueId, x, v.state⟩

/-- The distinct bundle ids of a parameter list in first-occurrence order:
the key set of the `bundles` dict built with
`bundles.setdefault(param.bundle_id, []).append(param)` (lines 277-278),
Python dicts preserving insertion order. -/
def bundleKeys (ps : List Parameter) : List JVal :=
  ps.foldl (fun acc p => if p.bundle_id ∈ acc then acc else acc ++ [p.bundle_id]) []

/-- Lookup in the call-local `last_access_map` association list; the map is
initialized with every bundle id of the parameter list, so the default is
never consulted on the real control flow. -/
def lamGet (lam : List (JVal × Option JVal)) (bid : JVal) : Option JVal :=
  ((lam.find? fun e => e.1 = bid).map fun e => e.2).getD none

/-- `last_access_map[bundle_id] = res[LAST_ACCESS]` (line 310): update the
first entry with the given key. -/
def lamSet (lam : List (JVal × Option JVal)) (bid : JVal) (v : Option JVal) :
    List (JVal × Option JVal) :=
  match lam with
  | [] => [(bid, v)]
  | e :: rest => if e.1 = bid then (bid, v) :: rest else e :: lamSet rest bid v

/-- `last_access_map.setdefault(param.bundle_id, None)` over the parameter
list (line 279): an association list with one `none` entry per distinct
bundle id. -/
def initLastAccess (ps : List Parameter) : List (JVal × Option JVal) :=
  ps.foldl
    (fun lam p => if (lam.find? fun e => e.1 = p.bundle_id).isSome then lam
                  else lam ++ [(p.bundle_id, none)]) []

/-- The `for bundle_id, params in bundles.items()` loop of `fetch_value`
(lines 281-310), iterating the distinct bundle ids in insertion order:
returns the issued requests in order, and either the merged values or the
first error.  An error stops the loop (the Python `raise` aborts the
call), so no partial result is returned. -/
def processBundles (oracle : JVal → PVResponse) (ps : List Parameter)
    (lam : List (JVal × Option JVal)) :
    List JVal → List PVRequest × Except FvErr (List ValueM)
  | [] => ([], .ok [])
  | bid :: rest =>
      let group := ps.filter fun p => p.bundle_id = bid
      if group.isEmpty then processBundles oracle ps lam rest
      else
        let req : PVRequest :=
          { bundleId := bid
            bundle := false
            valueIdList := group.map fun p => p.value_id
            guiIdChanged := false
            lastAccess := lamGet lam bid }
        let res := oracle bid
        if hasError res then ([req], .error (classifyError res))
        else
          let next := processBundles oracle ps (lamSet lam bid res.lastAccess) rest
          (req :: next.1, next.2.map fun vs => mergeVals res ++ vs)

/-- `WolfClient.fetch_value(gateway_id, system_id, parameters)`
(lines 272-313): partition by bundle id, initialize the call-local
last-access map to `None`, and process each bundle in insertion order. -/
def fetch_value (oracle : JVal → PVResponse) (ps : List Parameter) :
    List PVRequest × Except FvErr (List ValueM) :=
  processBundles oracle ps (initLastAccess ps) (bundleKeys ps)

/-! ## Expert-mode descriptor extraction
(`WolfClient._extract_parameter_descriptors`, wolf_client.py lines 401-428)

The Python generator walks the GUI-description tree; on a dict it reads a
`bundleId` from the dict's own `"BundleId"` key (`None` when absent), and
for a `"ParameterDescriptors"` key it first assigns
`descriptor["BundleId"] = bundleId` to every element of the array, then
yields the (mutated) elements, then recurses into the mutated array.

Because the recursion re-enters the structure *after* mutation, a direct
structural embedding would recurse on a term that is not smaller.  The
only part of the mutated structure whose traversal is not determined by
the original fields is the new `"BundleId"` value `b` itself, so the
embedding precomputes `tb = traverse b` once (where `b` is still a subterm)
and threads it: `traverseMut b tb d` computes exactly
`traverse (objSetBundle b d)`, which theorem `traverseMut_eq` below makes
precise. -/

/-- The `bundleId` read at the top of the dict branch (lines 407-409):
the dict's own `"BundleId"` value, `None` when the key is absent. -/
def bundleOf (fs : List (String × JVal)) : JVal :=
  (getField fs "BundleId").getD .null

theorem sizeOf_pos_list {α : Type} [SizeOf α] (l : List α) : 0 < sizeOf l := by
  cases l <;> simp

theorem sizeOf_getField {fs : List (String × JVal)} {k : String} {v : JVal}
    (h : getField fs k = some v) : sizeOf v < sizeOf fs := by
  unfold getField at h
  cases hf : fs.find? (fun f => f.1 = k) with
  | none => rw [hf] at h; simp at h
  | some e =>
      rw [hf] at h
      simp at h
      have hm := List.mem_of_find?_eq_some hf
      have := List.sizeOf_lt_of_mem hm
      cases e with
      | mk k' v' =>
          simp at this
          simp [← h]
          omega

theorem sizeOf_bundleOf (fs : List (String × JVal)) :
    sizeOf (bundleOf fs) < 1 + sizeOf fs := by
  unfold bundleOf
  cases h : getField fs "BundleId" with
  | none => simp; have := sizeOf_pos_list fs; omega
  | some v => simp; have := sizeOf_getField h; omega

mutual

/-- The recursive `traverse` of `_extract_parameter_descriptors`
(lines 404-426) on a tree node.  On a dict, `bundleOf` is read first, then
the keys are visited in order; on a list, the items are visited in order;
scalars yield nothing. -/
def traverse : JVal → List JVal
  | .obj fs => traverseFields (bundleOf fs) (traverse (bundleOf fs)) fs
  | .arr xs => traverseItems xs
  | .null => []
  | .bool _ => []
  | .str _ => []
  | .num _ => []
termination_by v => sizeOf v
decreasing_by
  all_goals simp_wf
  all_goals (first | exact sizeOf_bundleOf _ | omega)

/-- The `for a in item` loop of the list branch (lines 421-426). -/
def traverseItems : List JVal → List JVal
  | [] => []
  | x :: rest => traverse x ++ traverseItems rest
termination_by l => sizeOf l
decreasing_by
  all_goals simp_wf
  all_goals omega

/-- The `for key in item` loop of the dict branch (lines 411-418) for an
unmutated dict whose own bundle id is `b` (with `tb = traverse b`): a
`"ParameterDescriptors"` key first yields its items mutated with `b`, then
traverses the mutated array; every key's value is traversed. -/
def traverseFields (b : JVal) (tb : List JVal) : List (String × JVal) → List JVal
  | [] => []
  | (k, v) :: rest =>
      (if k = "ParameterDescriptors" then
        match v with
        | .arr items => items.map (objSetBundle b) ++ traverseMutItems b tb items
        | w => traverse w
      else traverse v) ++ traverseFields b tb rest
termination_by l => sizeOf l
decreasing_by
  all_goals simp_wf
  all_goals omega

/-- Traversal of the mutated descriptor array `[objSetBundle b d | d ∈ items]`
(the `yield from traverse(item[key])` of line 418, after the mutation of
lines 415-416). -/
def traverseMutItems (b : JVal) (tb : List JVal) : List JVal → List JVal
  | [] => []
  | d :: rest => traverseMut b tb d ++ traverseMutItems b tb rest
termination_by l => sizeOf l
decreasing_by
  all_goals simp_wf
  all_goals omega

/-- Traversal of one mutated descriptor: `traverse (objSetBundle b d)`.
A non-dict descriptor is unchanged by the mutation, so it is traversed as
is (on such elements the Python mutation itself would have raised
`TypeError`; descriptor arrays are assumed to hold dicts). -/
def traverseMut (b : JVal) (tb : List JVal) : JVal → List JVal
  | .obj fs => traverseFieldsMut b tb fs
  | .arr xs => traverseItems xs
  | .null => []
  | .bool _ => []
  | .str _ => []
  | .num _ => []
termination_by d => sizeOf d
decreasing_by
  all_goals simp_wf
  all_goals omega

/-- The dict-branch key loop over `setField fs "BundleId" b`, unfolded over
the original fields `fs`: the first `"BundleId"` field now holds `b` (so
its value's traversal is `tb`), and when no `"BundleId"` field exists the
assignment appended one at the end.  The mutated dict's own bundle id is
`b` in either case. -/
def traverseFieldsMut (b : JVal) (tb : List JVal) : List (String × JVal) → List JVal
  | [] => tb
  | (k, v) :: rest =>
      if k = "BundleId" then tb ++ traverseFields b tb rest
      else
        (if k = "ParameterDescriptors" then
          match v with
          | .arr items => items.map (objSetBundle b) ++ traverseMutItems b tb items
          | w => traverse w
        else traverse v) ++ traverseFieldsMut b tb rest
termination_by l => sizeOf l
decreasing_by
  all_goals simp_wf
  all_goals omega

end

/-- `WolfClient._extract_parameter_descriptors(desc)` (lines 401-428):
`list(traverse(desc))`. -/
def extract_parameter_descriptors (desc : JVal) : List JVal :=
  traverse desc

/-! ## The expert-mode branch of `fetch_parameters`
(wolf_client.py lines 143-147) -/

/-- The sort key `lambda x: x['ValueId']` (line 146).  Real descriptors
carry a numeric `ValueId`; a missing or non-numeric one (where Python
would raise `KeyError`/`TypeError` during sorting) is read as `0`. -/
def valueIdKey (d : JVal) : Int :=
  match d with
  | .obj fs =>
      match getField fs "ValueId" with
      | some (.num n) => n
      | _ => 0
  | _ => 0

/-- One `{Value, DisplayText}` list-item dict, marshalled into `LItem`
(`none` when a required key is missing, where Python raises `KeyError`). -/
def lItemOfJ : JVal → Option LItem
  | .obj fs =>
      match getField fs "Value", getField fs "DisplayText" with
      | some v, some d => some ⟨v, d⟩
      | _, _ => none
  | _ => none

/-- Marshal a raw JSON descriptor dict into `Descriptor`, reading the keys
`_map_parameter` reads (`ValueId`, `Name`, `ParameterId`, `BundleId`,
`IsReadOnly`, `Unit`, `ListItems`; the key spellings beyond the three
literal in wolf_client.py are modelled from the spec).  `none` models the
Python `KeyError`/`TypeError` on a malformed descriptor. -/
def descOfJ : JVal → Option Descriptor
  | .obj fs =>
      match getField fs "ValueId", getField fs "Name", getField fs "ParameterId" with
      | some (.num vid), some (.str nm), some pid =>
          match getField fs "ListItems" with
          | some (.arr lis) =>
              match lis.mapM lItemOfJ with
              | some items =>
                  some { valueId := vid, name := nm, parameterId := pid,
                         bundleId := getField fs "BundleId",
                         isReadOnly := getField fs "IsReadOnly",
                         unit := getField fs "Unit", listItems := some items }
              | none => none
          | some _ => none
          | none =>
              some { valueId := vid, name := nm, parameterId := pid,
                     bundleId := getField fs "BundleId",
                     isReadOnly := getField fs "IsReadOnly",
                     unit := getField fs "Unit", listItems := none }
      | _, _, _ => none
  | _ => none

/-- `_map_parameter` applied to a raw JSON descriptor: marshalling failure
(a Python `KeyError`) and the unmapped-unit implicit `None` are both
`none`. -/
def map_parameter_j (d : JVal) (parent : Option String) : Option Parameter :=
  (descOfJ d).bind fun dd => map_parameter dd parent

/-- Lines 144-146 of the expert branch: extract all descriptors and sort
them by value id ascending (`descriptors.sort(key=lambda x: x['ValueId'])`;
Python's stable ascending sort is `mergeSort`). -/
def expertDescriptors (desc : JVal) : List JVal :=
  (extract_parameter_descriptors desc).mergeSort
    fun a b => decide (valueIdKey a ≤ valueIdKey b)

/-- Line 147 of the expert branch: map every sorted descriptor with no
parent-tab name (`[WolfClient._map_parameter(p, None) for p in descriptors]`). -/
def expertParams (desc : JVal) : List (Option Parameter) :=
  (expertDescriptors desc).map fun p => map_parameter_j p none

/-! # Claims -/

/-! ## C9 — client/client_lambda configuration -/

/-- C9 counterexample: supplying neither a client nor a client factory is
not a configuration error — `WolfClient.__init__` (line 52) stores a fresh
default `httpx.AsyncClient()` and succeeds, contradicting the claim that
"supplying neither of the two is likewise a configuration error". -/
theorem c9_counterexample :
    @initClient Unit none none = Except.ok ClientCfg.default := rfl

/-- C9 (amended): constructing with both a client instance and a
client-factory function raises the `RuntimeError` configuration error;
with exactly one of them, that one is stored; with neither, a default
HTTP client is created and construction succeeds (no error). -/
theorem c9_amended_init_client : ∀ (C : Type) (c : C) (f : Unit → C),
    @initClient C (some c) (some f) =
        Except.error "Only one of client and client_lambda is allowed!"
    ∧ @initClient C (some c) none = Except.ok (ClientCfg.external c)
    ∧ @initClient C none (some f) = Except.ok (ClientCfg.factory f)
    ∧ @initClient C none none = Except.ok ClientCfg.default :=
  fun _ _ _ => ⟨rfl, rfl, rfl, rfl⟩

/-! ## C4 — `_map_parameter` subtype selection -/

/-- C4: the subtype selection policy of `_map_parameter`.  A present unit
tag selects the unit-specific variant (Celsius→Temperature, Bar→Pressure,
Percentage→Percentage, Hour→Hours, Kilowatt→Power, KilowattHours→Energy,
RPM→RPM, Flow→Flow, Frequency→Frequency) and takes precedence over any
list-items field; with no unit, a present list-items field selects the
`listItem` variant carrying the ordered pairs; with neither, the `simple`
variant.  A missing bundle id defaults to `"1000"`, a missing read-only
flag defaults to `true`. -/
theorem c4_map_parameter_policy : ∀ (p : Descriptor) (parent : Option String),
    (p.unit = some (.str CELSIUS_TEMPERATURE) →
        (map_parameter p parent).map Parameter.kind = some ParamKind.temperature)
    ∧ (p.unit = some (.str BAR) →
        (map_parameter p parent).map Parameter.kind = some ParamKind.pressure)
    ∧ (p.unit = some (.str PERCENTAGE) →
        (map_parameter p parent).map Parameter.kind = some ParamKind.percentage)
    ∧ (p.unit = some (.str HOUR) →
        (map_parameter p parent).map Parameter.kind = some ParamKind.hours)
    ∧ (p.unit = some (.str KILOWATT) →
        (map_parameter p parent).map Parameter.kind = some ParamKind.power)
    ∧ (p.unit = some (.str KILOWATTHOURS) →
        (map_parameter p parent).map Parameter.kind = some ParamKind.energy)
    ∧ (p.unit = some (.str RPM) →
        (map_parameter p parent).map Parameter.kind = some ParamKind.rpm)
    ∧ (p.unit = some (.str FLOW) →
        (map_parameter p parent).map Parameter.kind = some ParamKind.flow)
    ∧ (p.unit = some (.str FREQUENCY) →
        (map_parameter p parent).map Parameter.kind = some ParamKind.frequency)
    ∧ (∀ items, p.unit = none → p.listItems = some items →
        (map_parameter p parent).map Parameter.kind = some (ParamKind.listItem items))
    ∧ (p.unit = none → p.listItems = none →
        (map_parameter p parent).map Parameter.kind = some ParamKind.simple)
    ∧ (∀ q, p.bundleId = none → map_parameter p parent = some q →
        q.bundle_id = .str "1000")
    ∧ (∀ q, p.isReadOnly = none → map_parameter p parent = some q →
        q.read_only = .bool true) := by
  intro p parent
  refine ⟨?_, ?_, ?_, ?_, ?_, ?_, ?_, ?_, ?_, ?_, ?_, ?_, ?_⟩
  · intro h
    simp [map_parameter, h, CELSIUS_TEMPERATURE, BAR, PERCENTAGE, HOUR, KILOWATT,
      KILOWATTHOURS, RPM, FLOW, FREQUENCY]
  · intro h
    simp [map_parameter, h, CELSIUS_TEMPERATURE, BAR, PERCENTAGE, HOUR, KILOWATT,
      KILOWATTHOURS, RPM, FLOW, FREQUENCY]
  · intro h
    simp [map_parameter, h, CELSIUS_TEMPERATURE, BAR, PERCENTAGE, HOUR, KILOWATT,
      KILOWATTHOURS, RPM, FLOW, FREQUENCY]
  · intro h
    simp [map_parameter, h, CELSIUS_TEMPERATURE, BAR, PERCENTAGE, HOUR, KILOWATT,
      KILOWATTHOURS, RPM, FLOW, FREQUENCY]
  · intro h
    simp [map_parameter, h, CELSIUS_TEMPERATURE, BAR, PERCENTAGE, HOUR, KILOWATT,
      KILOWATTHOURS, RPM, FLOW, FREQUENCY]
  · intro h
    simp [map_parameter, h, CELSIUS_TEMPERATURE, BAR, PERCENTAGE, HOUR, KILOWATT,
      KILOWATTHOURS, RPM, FLOW, FREQUENCY]
  · intro h
    simp [map_parameter, h, CELSIUS_TEMPERATURE, BAR, PERCENTAGE, HOUR, KILOWATT,
      KILOWATTHOURS, RPM, FLOW, FREQUENCY]
  · intro h
    simp [map_parameter, h, CELSIUS_TEMPERATURE, BAR, PERCENTAGE, HOUR, KILOWATT,
      KILOWATTHOURS, RPM, FLOW, FREQUENCY]
  · intro h
    simp [map_parameter, h, CELSIUS_TEMPERATURE, BAR, PERCENTAGE, HOUR, KILOWATT,
      KILOWATTHOURS, RPM, FLOW, FREQUENCY]
  · intro items h hl
    simp [map_parameter, h, hl]
  · intro h hl
    simp [map_parameter, h, hl]
  · intro q h hq
    cases hu : p.unit with
    | none =>
        cases hl : p.listItems with
        | none =>
            simp only [map_parameter, hu, hl, h, Option.getD_none] at hq
            injection hq with hq
            subst hq
            rfl
        | some items =>
            simp only [map_parameter, hu, hl, h, Option.getD_none] at hq
            injection hq with hq
            subst hq
            rfl
    | some u =>
        cases u with
        | str s =>
            simp only [map_parameter, hu, h, Option.getD_none] at hq
            repeat' split at hq
            all_goals first
              | (injection hq with hq; subst hq; rfl)
              | simp at hq
        | null => simp [map_parameter, hu] at hq
        | bool b => simp [map_parameter, hu] at hq
        | num n => simp [map_parameter, hu] at hq
        | obj fs => simp [map_parameter, hu] at hq
        | arr xs => simp [map_parameter, hu] at hq
  · intro q h hq
    cases hu : p.unit with
    | none =>
        cases hl : p.listItems with
        | none =>
            simp only [map_parameter, hu, hl, h, Option.getD_none] at hq
            injection hq with hq
            subst hq
            rfl
        | some items =>
            simp only [map_parameter, hu, hl, h, Option.getD_none] at hq
            injection hq with hq
            subst hq
            rfl
    | some u =>
        cases u with
        | str s =>
            simp only [map_parameter, hu, h, Option.getD_none] at hq
            repeat' split at hq
            all_goals first
              | (injection hq with hq; subst hq; rfl)
              | simp at hq
        | null => simp [map_parameter, hu] at hq
        | bool b => simp [map_parameter, hu] at hq
        | num n => simp [map_parameter, hu] at hq
        | obj fs => simp [map_parameter, hu] at hq
        | arr xs => simp [map_parameter, hu] at hq

/-- C4 witness: a descriptor carrying the Celsius unit tag together with a
list-items field maps to the temperature variant (unit precedence), and a
descriptor with neither unit nor list-items and no bundle id / read-only
flag maps to the simple variant with the defaulted fields. -/
theorem c4_witness :
    (map_parameter
        { valueId := 1, name := "t", parameterId := .num 2, bundleId := none,
          isReadOnly := none, unit := some (.str CELSIUS_TEMPERATURE),
          listItems := some [⟨.num 0, .str "off"⟩] } none).map Parameter.kind
      = some ParamKind.temperature
    ∧ (map_parameter
        { valueId := 1, name := "t", parameterId := .num 2, bundleId := none,
          isReadOnly := none, unit := none, listItems := none } none).map
          Parameter.kind = some ParamKind.simple
    ∧ ∀ q, map_parameter
        { valueId := 1, name := "t", parameterId := .num 2, bundleId := none,
          isReadOnly := none, unit := none, listItems := none } none = some q →
        q.bundle_id = .str "1000" ∧ q.read_only = .bool true := by
  refine ⟨(c4_map_parameter_policy _ none).1 rfl,
          (c4_map_parameter_policy _ none).2.2.2.2.2.2.2.2.2.2.1 rfl rfl,
          fun q hq => ⟨?_, ?_⟩⟩
  · exact (c4_map_parameter_policy _ none).2.2.2.2.2.2.2.2.2.2.2.1 q rfl hq
  · exact (c4_map_parameter_policy _ none).2.2.2.2.2.2.2.2.2.2.2.2 q rfl hq

/-! ## C1 — retry-once on 401/500 -/

/-- C1: for a request starting with valid (unexpired) tokens, a first
response with status 401 or 500 triggers exactly one re-authorization
(installing the fresh tokens and fresh session of that call) and exactly
one retried execution; a `FetchFailed` failure of the retry propagates as
an error and sets `last_failed`; a retry that succeeds returns its payload;
a first response with any other status is parsed and returned and
`last_failed` is cleared to `false`. -/
theorem c1_request_retry (auth : Nat → AuthData) (now : Nat) (st : WolfSt)
    (s : Nat) (p : JVal) (r : RetryOut) (t : TokensM)
    (ht : st.tokens = some t) (hexp : t.expired = false) :
    ((s = 401 ∨ s = 500) →
        (wolfRequest auth now st s p r).authCalls = 1
      ∧ (wolfRequest auth now st s p r).execCalls = 2
      ∧ (wolfRequest auth now st s p r).state.tokens = some (auth 0).tokens
      ∧ (wolfRequest auth now st s p r).state.session_id = some (auth 0).session
      ∧ (r = .fetchFailed →
            (wolfRequest auth now st s p r).result = .error ()
          ∧ (wolfRequest auth now st s p r).state.last_failed = true)
      ∧ (∀ pl, r = .ok pl → (wolfRequest auth now st s p r).result = .ok pl))
    ∧ (¬(s = 401 ∨ s = 500) →
        (wolfRequest auth now st s p r).result = .ok p
      ∧ (wolfRequest auth now st s p r).state.last_failed = false
      ∧ (wolfRequest auth now st s p r).authCalls = 0
      ∧ (wolfRequest auth now st s p r).execCalls = 1) := by
  have hlazy :
      (match st.tokens with | none => true | some t => t.expired) = false := by
    rw [ht]; exact hexp
  constructor
  · intro hs
    cases r with
    | ok pl =>
        simp only [wolfRequest, hlazy, if_neg (Bool.false_ne_true), if_pos hs,
          ReqTrace.authCalls, ReqTrace.execCalls, authorize_and_session]
        split <;>
          simp [REvent.auth, List.count_cons, List.count_append, List.count_nil]
    | fetchFailed =>
        simp only [wolfRequest, hlazy, if_neg (Bool.false_ne_true), if_pos hs,
          ReqTrace.authCalls, ReqTrace.execCalls, authorize_and_session]
        split <;>
          simp [REvent.auth, List.count_cons, List.count_append, List.count_nil]
  · intro hs
    simp only [wolfRequest, hlazy, if_neg (Bool.false_ne_true), if_neg hs,
      ReqTrace.authCalls, ReqTrace.execCalls]
    split <;>
      simp [List.count_cons, List.count_append, List.count_nil]

/-- C1 witness: a concrete request with valid tokens, a first status of
500 and a failing retry re-authorizes once, executes twice, propagates the
error and sets the flag; with first status 200 the payload is returned and
the flag is cleared. -/
theorem c1_witness :
    ((wolfRequest (fun _ => ⟨⟨8, false⟩, 21⟩) 100
        ⟨some ⟨3, false⟩, some 7, some 150, false⟩ 500 (.str "body")
        .fetchFailed).authCalls = 1
    ∧ (wolfRequest (fun _ => ⟨⟨8, false⟩, 21⟩) 100
        ⟨some ⟨3, false⟩, some 7, some 150, false⟩ 500 (.str "body")
        .fetchFailed).execCalls = 2
    ∧ (wolfRequest (fun _ => ⟨⟨8, false⟩, 21⟩) 100
        ⟨some ⟨3, false⟩, some 7, some 150, false⟩ 500 (.str "body")
        .fetchFailed).result = .error ()
    ∧ (wolfRequest (fun _ => ⟨⟨8, false⟩, 21⟩) 100
        ⟨some ⟨3, false⟩, some 7, some 150, false⟩ 500 (.str "body")
        .fetchFailed).state.last_failed = true)
    ∧ ((wolfRequest (fun _ => ⟨⟨8, false⟩, 21⟩) 100
        ⟨some ⟨3, false⟩, some 7, some 150, false⟩ 200 (.str "body")
        .fetchFailed).result = .ok (.str "body")
    ∧ (wolfRequest (fun _ => ⟨⟨8, false⟩, 21⟩) 100
        ⟨some ⟨3, false⟩, some 7, some 150, false⟩ 200 (.str "body")
        .fetchFailed).state.last_failed = false) := by
  have h500 := c1_request_retry (fun _ => ⟨⟨8, false⟩, 21⟩) 100
    ⟨some ⟨3, false⟩, some 7, some 150, false⟩ 500 (.str "body") .fetchFailed
    ⟨3, false⟩ rfl rfl
  have h200 := c1_request_retry (fun _ => ⟨⟨8, false⟩, 21⟩) 100
    ⟨some ⟨3, false⟩, some 7, some 150, false⟩ 200 (.str "body") .fetchFailed
    ⟨3, false⟩ rfl rfl
  have h1 := h500.1 (Or.inr rfl)
  have h2 := h200.2 (by simp)
  exact ⟨⟨h1.1, h1.2.1, (h1.2.2.2.2.1 rfl).1, (h1.2.2.2.2.1 rfl).2⟩,
         h2.1, h2.2.1⟩

/-! ## C7 — session refresh before the main request -/

/-- C7 counterexample: on a fresh client (no tokens, no refresh
timestamp), the claim as stated predicts exactly one session-update call,
since no refresh timestamp exists at the start of the request; but the
lazy `__authorize_and_session` (lines 65-66, 107-112) runs first and
resets `last_session_refesh` to `now + 60`, so the elapsed-deadline check
of lines 71-74 fails and zero `update_session` calls are made. -/
theorem c7_counterexample :
    ¬ ((wolfRequest (fun _ => ⟨⟨0, false⟩, 0⟩) 5 ⟨none, none, none, false⟩
        200 .null (.ok .null)).updateCalls = 1) := by decide

/-- C7 (amended): for a request whose tokens are present and unexpired
(so the lazy authorize does not run): if the refresh deadline has elapsed
(or no refresh timestamp exists), exactly one `update_session` call is
made, it precedes the main execution, and the deadline is reset to
`now + 60`, with no re-authorization of tokens (on a non-401/500 status);
if the deadline has not elapsed, zero `update_session` calls are made.
When the request instead begins with absent or expired tokens, the
preceding `__authorize_and_session` itself resets the deadline and no
`update_session` call occurs (see the counterexample). -/
theorem c7_refresh_discipline (auth : Nat → AuthData) (now : Nat) (st : WolfSt)
    (s : Nat) (p : JVal) (r : RetryOut) (t : TokensM)
    (ht : st.tokens = some t) (hexp : t.expired = false) :
    ((st.last_session_refesh = none
        ∨ ∃ d, st.last_session_refesh = some d ∧ d ≤ now) →
        (wolfRequest auth now st s p r).updateCalls = 1
      ∧ (wolfRequest auth now st s p r).events.take 2 = [.update, .exec]
      ∧ (wolfRequest auth now st s p r).state.last_session_refesh = some (now + 60)
      ∧ (¬(s = 401 ∨ s = 500) → (wolfRequest auth now st s p r).authCalls = 0))
    ∧ ((∃ d, st.last_session_refesh = some d ∧ now < d) →
        (wolfRequest auth now st s p r).updateCalls = 0) := by
  have hlazy :
      (match st.tokens with | none => true | some t => t.expired) = false := by
    rw [ht]; exact hexp
  constructor
  · intro hdue
    have hdue' :
        (match st.last_session_refesh with
          | none => true
          | some d => decide (d ≤ now)) = true := by
      rcases hdue with h | ⟨d, hd, hle⟩
      · rw [h]
      · rw [hd]; simpa using hle
    simp only [wolfRequest, hlazy, if_neg (Bool.false_ne_true), if_pos hdue',
      ReqTrace.updateCalls, ReqTrace.authCalls, authorize_and_session]
    refine ⟨?_, ?_, ?_, ?_⟩
    · split
      · cases r <;>
          simp [List.count_cons, List.count_append, List.count_nil]
      · simp [List.count_cons, List.count_append, List.count_nil]
    · split
      · cases r <;> simp
      · simp
    · split
      · cases r <;> simp
      · simp
    · intro hs
      rw [if_neg hs]
      simp [List.count_cons, List.count_append, List.count_nil]
  · intro hnot
    rcases hnot with ⟨d, hd, hlt⟩
    have hdue' :
        (match st.last_session_refesh with
          | none => true
          | some d => decide (d ≤ now)) = false := by
      rw [hd]
      simpa using Nat.not_le.mpr hlt
    simp only [wolfRequest, hlazy, if_neg (Bool.false_ne_true),
      if_neg (Bool.false_ne_true ∘ (hdue'.symm.trans ·)),
      ReqTrace.updateCalls]
    split
    · cases r <;>
        simp [List.count_cons, List.count_append, List.count_nil]
    · simp [List.count_cons, List.count_append, List.count_nil]

/-- C7 witness: with valid tokens and an elapsed deadline (150 ≤ 200),
exactly one session-update call happens, right before the single
execution, and the deadline becomes `200 + 60`; with a future deadline
(200 < 500) no session-update call happens. -/
theorem c7_witness :
    ((wolfRequest (fun _ => ⟨⟨8, false⟩, 21⟩) 200
        ⟨some ⟨3, false⟩, some 7, some 150, false⟩ 200 .null
        (.ok .null)).updateCalls = 1
    ∧ (wolfRequest (fun _ => ⟨⟨8, false⟩, 21⟩) 200
        ⟨some ⟨3, false⟩, some 7, some 150, false⟩ 200 .null
        (.ok .null)).events.take 2 = [.update, .exec]
    ∧ (wolfRequest (fun _ => ⟨⟨8, false⟩, 21⟩) 200
        ⟨some ⟨3, false⟩, some 7, some 150, false⟩ 200 .null
        (.ok .null)).state.last_session_refesh = some (200 + 60)
    ∧ (wolfRequest (fun _ => ⟨⟨8, false⟩, 21⟩) 200
        ⟨some ⟨3, false⟩, some 7, some 150, false⟩ 200 .null
        (.ok .null)).authCalls = 0)
    ∧ (wolfRequest (fun _ => ⟨⟨8, false⟩, 21⟩) 200
        ⟨some ⟨3, false⟩, some 7, some 500, false⟩ 200 .null
        (.ok .null)).updateCalls = 0 := by
  have h1 := c7_refresh_discipline (fun _ => ⟨⟨8, false⟩, 21⟩) 200
    ⟨some ⟨3, false⟩, some 7, some 150, false⟩ 200 .null (.ok .null)
    ⟨3, false⟩ rfl rfl
  have h2 := c7_refresh_discipline (fun _ => ⟨⟨8, false⟩, 21⟩) 200
    ⟨some ⟨3, false⟩, some 7, some 500, false⟩ 200 .null (.ok .null)
    ⟨3, false⟩ rfl rfl
  have ha := h1.1 (Or.inr ⟨150, rfl, by omega⟩)
  exact ⟨⟨ha.1, ha.2.1, ha.2.2.1, ha.2.2.2 (by simp)⟩,
         h2.2 ⟨500, rfl, by omega⟩⟩

/-! ## C3 — de-duplication by value id -/

/-- The de-duplication policy in the spec's words: the first occurrence of
each value id in flattening order wins and later duplicates are dropped. -/
def firstWins : List Parameter → List Parameter
  | [] => []
  | p :: rest =>
      p :: firstWins (rest.filter fun q => ¬ q.value_id = p.value_id)
termination_by l => l.length
decreasing_by
  simp_wf
  exact Nat.lt_succ_of_le (List.length_filter_le _ _)

theorem firstWins_nil : firstWins [] = [] := by
  simp [firstWins]

theorem firstWins_cons (p : Parameter) (rest : List Parameter) :
    firstWins (p :: rest)
      = p :: firstWins (rest.filter fun q => ¬ q.value_id = p.value_id) := by
  simp [firstWins]

/-- `fix_duplicated_parameters`'s recursion computes first-occurrence-wins
de-duplication of the `None`-stripped input, restricted to ids outside
`seen`. -/
theorem fixDupGo_eq :
    ∀ (l : List (Option Parameter)) (seen : List Int),
      fixDupGo seen l
        = firstWins ((l.filterMap id).filter fun p => p.value_id ∉ seen) := by
  intro l
  induction l with
  | nil => intro seen; simp [fixDupGo, firstWins_nil]
  | cons hd rest ih =>
      intro seen
      cases hd with
      | none => simpa [fixDupGo] using ih seen
      | some p =>
          by_cases hmem : p.value_id ∈ seen
          · simp [fixDupGo, hmem, ih seen]
          · have step : fixDupGo seen (some p :: rest)
                = p :: fixDupGo (p.value_id :: seen) rest := by
              simp [fixDupGo, hmem]
            have rhs : (List.filterMap id (some p :: rest)).filter
                  (fun q => decide (q.value_id ∉ seen))
                = p :: (List.filterMap id rest).filter
                  (fun q => decide (q.value_id ∉ seen)) := by
              simp [hmem]
            rw [step, ih (p.value_id :: seen), rhs, firstWins_cons]
            congr 1
            rw [List.filter_filter]
            congr 1
            apply List.filter_congr
            intro q _
            by_cases h1 : q.value_id = p.value_id <;>
              by_cases h2 : q.value_id ∈ seen <;> simp [h1, h2]

theorem mem_firstWins : ∀ (l : List Parameter) (q : Parameter),
    q ∈ firstWins l → q ∈ l := by
  intro l
  induction l using firstWins.induct with
  | case1 => simp [firstWins_nil]
  | case2 p rest ih =>
      intro q hq
      rw [firstWins_cons] at hq
      rcases List.mem_cons.mp hq with h | h
      · simp [h]
      · exact List.mem_cons_of_mem _ (List.mem_of_mem_filter (ih q h))

/-- The ids of a first-wins de-duplicated list are pairwise distinct. -/
theorem firstWins_nodup : ∀ l : List Parameter,
    ((firstWins l).map Parameter.value_id).Nodup := by
  intro l
  induction l using firstWins.induct with
  | case1 => simp [firstWins_nil]
  | case2 p rest ih =>
      rw [firstWins_cons]
      refine List.Nodup.cons ?_ ih
      intro hmem
      rcases List.mem_map.mp hmem with ⟨q, hq, hid⟩
      have := List.of_mem_filter (mem_firstWins _ _ hq)
      simp [hid] at this

/-- First-wins de-duplication is the identity on lists whose ids are
already pairwise distinct. -/
theorem firstWins_of_nodup : ∀ l : List Parameter,
    (l.map Parameter.value_id).Nodup → firstWins l = l := by
  intro l
  induction l using firstWins.induct with
  | case1 => intro _; simp [firstWins_nil]
  | case2 p rest ih =>
      intro hnd
      rw [firstWins_cons]
      simp only [List.map_cons, List.nodup_cons] at hnd
      have hfilter : rest.filter (fun q => ¬ q.value_id = p.value_id) = rest := by
        rw [List.filter_eq_self]
        intro q hq
        have : q.value_id ≠ p.value_id := by
          intro he
          exact hnd.1 (List.mem_map.mpr ⟨q, hq, he⟩)
        simpa using this
      rw [hfilter] at ih ⊢
      rw [ih hnd.2]

theorem firstWins_idem (l : List Parameter) :
    firstWins (firstWins l) = firstWins l :=
  firstWins_of_nodup _ (firstWins_nodup l)

/-- `fix_duplicated_parameters` on an all-`some` list is exactly
first-wins de-duplication. -/
theorem fix_eq_firstWins (ps : List Parameter) :
    fix_duplicated_parameters (ps.map some) = firstWins ps := by
  rw [fix_duplicated_parameters, fixDupGo_eq]
  simp [List.filterMap_map, List.filterMap_some]

/-- The flatten loop's `(distinct_ids, flattened)` invariant:
`distinct_ids` is exactly the id list of `flattened`, and stays
duplicate-free. -/
theorem flattenInner_inv (reg : Option PResult) :
    ∀ (sub : List (Option Parameter)) (ids : List Int) (acc : List Parameter)
      (out : List Int × List Parameter),
      flattenInner reg sub ids acc = some out →
      ids = acc.map Parameter.value_id → ids.Nodup →
      out.1 = out.2.map Parameter.value_id ∧ out.1.Nodup := by
  intro sub
  induction sub with
  | nil =>
      intro ids acc out h hids hnd
      simp only [flattenInner] at h
      cases h
      exact ⟨hids, hnd⟩
  | cons hd rest ih =>
      intro ids acc out h hids hnd
      cases hd with
      | none => exact ih ids acc out (by simpa [flattenInner] using h) hids hnd
      | some val =>
          simp only [flattenInner] at h
          cases hnm : deriveName reg val.name with
          | none => rw [hnm] at h; cases h
          | some nm =>
              rw [hnm] at h
              simp only at h
              by_cases hmem : val.value_id ∈ ids
              · rw [if_pos hmem] at h
                exact ih ids acc out h hids hnd
              · rw [if_neg hmem] at h
                refine ih _ _ out h ?_ ?_
                · simp [hids]
                · rw [List.nodup_append]
                  exact ⟨hnd, List.nodup_singleton _, by
                    intro a ha hb
                    simp only [List.mem_singleton] at hb
                    subst hb
                    exact hmem ha⟩

/-- The invariant carried through the outer flatten loop. -/
theorem flattenOuter_inv (reg : Option PResult) :
    ∀ (subs : List (List (Option Parameter))) (ids : List Int)
      (acc : List Parameter) (out : List Int × List Parameter),
      flattenOuter reg subs ids acc = some out →
      ids = acc.map Parameter.value_id → ids.Nodup →
      out.1 = out.2.map Parameter.value_id ∧ out.1.Nodup := by
  intro subs
  induction subs with
  | nil =>
      intro ids acc out h hids hnd
      simp only [flattenOuter] at h
      cases h
      exact ⟨hids, hnd⟩
  | cons sub rest ih =>
      intro ids acc out h hids hnd
      simp only [flattenOuter] at h
      cases hstep : flattenInner reg sub ids acc with
      | none => rw [hstep] at h; cases h
      | some mid =>
          rw [hstep] at h
          have hmid := flattenInner_inv reg sub ids acc mid hstep hids hnd
          exact ih mid.1 mid.2 out h hmid.1 hmid.2

/-- C3: after flattening, every value id appears at most once; the final
id-only pass `fix_duplicated_parameters` agrees with the in-flatten
de-duplication (applying it to the flattened list is the identity);
`fix_duplicated_parameters` is idempotent; and it keeps exactly the first
occurrence of each value id in order (`firstWins`), dropping later
duplicates. -/
theorem c3_dedup :
    (∀ (reg : Option PResult) (res : List (List (Option Parameter)))
        (out : List Parameter),
        flatten_dedup reg res = some out →
        (out.map Parameter.value_id).Nodup
        ∧ fix_duplicated_parameters (out.map some) = out)
    ∧ (∀ ps : List (Option Parameter),
        fix_duplicated_parameters
            ((fix_duplicated_parameters ps).map some)
          = fix_duplicated_parameters ps)
    ∧ (∀ ps : List Parameter,
        fix_duplicated_parameters (ps.map some) = firstWins ps) := by
  refine ⟨?_, ?_, fix_eq_firstWins⟩
  · intro reg res out h
    simp only [flatten_dedup, Option.map_eq_some'] at h
    rcases h with ⟨pair, hpair, hsnd⟩
    have hinv := flattenOuter_inv reg res [] [] pair hpair (by simp) (by simp)
    have hnd : (out.map Parameter.value_id).Nodup := by
      rw [← hsnd, ← hinv.1]; exact hinv.2
    exact ⟨hnd, by rw [fix_eq_firstWins, firstWins_of_nodup _ hnd]⟩
  · intro ps
    have h1 : fix_duplicated_parameters ps = firstWins (ps.filterMap id) := by
      rw [fix_duplicated_parameters, fixDupGo_eq]
      simp
    rw [h1, fix_eq_firstWins, firstWins_idem]

/-- C3 witness: a concrete flatten run with a duplicated value id keeps
only the first occurrence, the final pass is a no-op on it, and
`fix_duplicated_parameters` deduplicates the duplicated list to the
first-wins list. -/
theorem c3_witness :
    flatten_dedup none
        [[some { value_id := 1, name := "a", parent := none,
                 parameter_id := .null, bundle_id := .str "1000",
                 read_only := .bool true, kind := .simple },
          none,
          some { value_id := 1, name := "b", parent := none,
                 parameter_id := .null, bundle_id := .str "1000",
                 read_only := .bool true, kind := .simple }]]
      = some [{ value_id := 1, name := "a", parent := none,
                parameter_id := .null, bundle_id := .str "1000",
                read_only := .bool true, kind := .simple }]
    ∧ ((fun out =>
        (out.map Parameter.value_id).Nodup
        ∧ fix_duplicated_parameters (out.map some) = out)
        [{ value_id := 1, name := "a", parent := none,
           parameter_id := .null, bundle_id := .str "1000",
           read_only := .bool true, kind := .simple }]) := by
  constructor
  · rfl
  · exact c3_dedup.1 none
      [[some { value_id := 1, name := "a", parent := none,
               parameter_id := .null, bundle_id := .str "1000",
               read_only := .bool true, kind := .simple },
        none,
        some { value_id := 1, name := "b", parent := none,
               parameter_id := .null, bundle_id := .str "1000",
               read_only := .bool true, kind := .simple }]]
      _ rfl

/-! ## C2 / C10 — `fetch_value` bundling -/

theorem bundleKeys_go_nodup (ps : List Parameter) :
    ∀ acc : List JVal, acc.Nodup →
      (ps.foldl (fun acc p =>
          if p.bundle_id ∈ acc then acc else acc ++ [p.bundle_id]) acc).Nodup := by
  induction ps with
  | nil => intro acc h; simpa using h
  | cons p rest ih =>
      intro acc h
      simp only [List.foldl_cons]
      by_cases hmem : p.bundle_id ∈ acc
      · rw [if_pos hmem]; exact ih acc h
      · rw [if_neg hmem]
        refine ih _ ?_
        rw [List.nodup_append]
        exact ⟨h, List.nodup_singleton _, by
          intro a ha hb
          simp only [List.mem_singleton] at hb
          subst hb
          exact hmem ha⟩

/-- The distinct bundle ids are pairwise distinct. -/
theorem bundleKeys_nodup (ps : List Parameter) : (bundleKeys ps).Nodup :=
  bundleKeys_go_nodup ps [] List.nodup_nil

theorem bundleKeys_go_mem (ps : List Parameter) :
    ∀ (acc : List JVal) (b : JVal),
      b ∈ ps.foldl (fun acc p =>
          if p.bundle_id ∈ acc then acc else acc ++ [p.bundle_id]) acc ↔
      b ∈ acc ∨ b ∈ ps.map Parameter.bundle_id := by
  induction ps with
  | nil => intro acc b; simp
  | cons p rest ih =>
      intro acc b
      simp only [List.foldl_cons, List.map_cons, List.mem_cons]
      by_cases hmem : p.bundle_id ∈ acc
      · rw [if_pos hmem, ih]
        constructor
        · rintro (h | h)
          · exact Or.inl h
          · exact Or.inr (Or.inr h)
        · rintro (h | h | h)
          · exact Or.inl h
          · subst h; exact Or.inl hmem
          · exact Or.inr h
      · rw [if_neg hmem, ih]
        simp only [List.mem_append, List.mem_singleton]
        tauto

/-- A bundle id occurs among the keys exactly when some parameter carries it. -/
theorem mem_bundleKeys (ps : List Parameter) (b : JVal) :
    b ∈ bundleKeys ps ↔ b ∈ ps.map Parameter.bundle_id := by
  rw [bundleKeys, bundleKeys_go_mem]
  simp

/-- Every key of the freshly built `last_access_map` holds `None`. -/
theorem initLastAccess_val (ps : List Parameter) :
    ∀ e ∈ initLastAccess ps, e.2 = none := by
  rw [initLastAccess]
  suffices h : ∀ (acc : List (JVal × Option JVal)), (∀ e ∈ acc, e.2 = none) →
      ∀ e ∈ ps.foldl
        (fun lam p => if (lam.find? fun e => e.1 = p.bundle_id).isSome then lam
                      else lam ++ [(p.bundle_id, none)]) acc, e.2 = none by
    exact h [] (by simp)
  induction ps with
  | nil => intro acc h; simpa using h
  | cons p rest ih =>
      intro acc h
      simp only [List.foldl_cons]
      by_cases hmem : (acc.find? fun e => e.1 = p.bundle_id).isSome
      · rw [if_pos hmem]; exact ih acc h
      · rw [if_neg hmem]
        refine ih _ ?_
        intro e he
        rcases List.mem_append.mp he with h1 | h1
        · exact h e h1
        · simp only [List.mem_singleton] at h1
          rw [h1]

/-- A map whose entries all hold `None` reads `None` at every key. -/
theorem lamGet_of_all_none (lam : List (JVal × Option JVal))
    (h : ∀ e ∈ lam, e.2 = none) (b : JVal) : lamGet lam b = none := by
  rw [lamGet]
  cases hf : lam.find? fun e => e.1 = b with
  | none => rfl
  | some e => simpa using h e (List.mem_of_find?_eq_some hf)

/-- Updating one key leaves the value read at any other key unchanged. -/
theorem lamGet_set_ne (bid b : JVal) (v : Option JVal) (hne : b ≠ bid) :
    ∀ lam : List (JVal × Option JVal), lamGet (lamSet lam bid v) b = lamGet lam b := by
  intro lam
  induction lam with
  | nil => simp [lamSet, lamGet, Ne.symm hne]
  | cons e rest ih =>
      by_cases he : e.1 = bid
      · have : lamSet (e :: rest) bid v = (bid, v) :: rest := by
          simp [lamSet, he]
        rw [this]
        simp only [lamGet, List.find?_cons]
        have h1 : ((bid, v).1 = b) = False := by simp [Ne.symm hne]
        have h2 : (e.1 = b) = False := by simp [he, Ne.symm hne]
        simp [h1, h2]
      · have : lamSet (e :: rest) bid v = e :: lamSet rest bid v := by
          simp [lamSet, he]
        rw [this]
        simp only [lamGet, List.find?_cons]
        by_cases hb : e.1 = b
        · simp [hb]
        · simp only [hb, decide_False]
          exact ih

/-- The full behaviour of the per-bundle loop of `fetch_value`, by
induction over the remaining keys: request-field discipline, the
success-path characterization, the error-path classification, and the
requests being an in-order prefix of the keys. -/
theorem processBundles_spec (oracle : JVal → PVResponse) (ps : List Parameter) :
    ∀ (ks : List JVal) (lam : List (JVal × Option JVal)),
      (∀ b ∈ ks, lamGet lam b = none) →
      ks.Nodup →
      (∀ b ∈ ks, ps.filter (fun p => p.bundle_id = b) ≠ []) →
      (∀ r ∈ (processBundles oracle ps lam ks).1,
          r.bundle = false ∧ r.guiIdChanged = false ∧ r.lastAccess = none
          ∧ r.valueIdList =
              (ps.filter fun p => p.bundle_id = r.bundleId).map Parameter.value_id)
      ∧ ((∀ b ∈ ks, hasError (oracle b) = false) →
          (processBundles oracle ps lam ks).1.map PVRequest.bundleId = ks
          ∧ (processBundles oracle ps lam ks).2
              = .ok (ks.flatMap fun b => mergeVals (oracle b)))
      ∧ (∀ b, ks.find? (fun b' => hasError (oracle b')) = some b →
          (processBundles oracle ps lam ks).2 = .error (classifyError (oracle b)))
      ∧ (∃ n, (processBundles oracle ps lam ks).1.map PVRequest.bundleId
              = ks.take n) := by
  intro ks
  induction ks with
  | nil =>
      intro lam _ _ _
      refine ⟨by simp [processBundles], by simp [processBundles], ?_, ⟨0, by simp [processBundles]⟩⟩
      intro b hb
      simp at hb
  | cons bid rest ih =>
      intro lam hlam hnd hgrp
      have hg : (ps.filter fun p => p.bundle_id = bid).isEmpty = false := by
        rcases hq : (ps.filter fun p => p.bundle_id = bid) with _ | ⟨q, qs⟩
        · exact absurd hq (hgrp bid (List.mem_cons_self bid rest))
        · rw [hq]; rfl
      have hget : lamGet lam bid = none := hlam bid (List.mem_cons_self bid rest)
      simp only [List.nodup_cons] at hnd
      cases herr : hasError (oracle bid) with
      | true =>
          have hrun : processBundles oracle ps lam (bid :: rest)
              = ([{ bundleId := bid, bundle := false,
                    valueIdList := (ps.filter fun p => p.bundle_id = bid).map
                      Parameter.value_id,
                    guiIdChanged := false, lastAccess := lamGet lam bid }],
                 .error (classifyError (oracle bid))) := by
            simp only [processBundles, hg, Bool.false_eq_true, if_neg,
              if_pos herr]
            simp
          refine ⟨?_, ?_, ?_, ⟨1, ?_⟩⟩
          · intro r hr
            rw [hrun] at hr
            simp only [List.mem_singleton] at hr
            subst hr
            exact ⟨rfl, rfl, hget, rfl⟩
          · intro hno
            exact absurd herr (by simp [hno bid (List.mem_cons_self bid rest)])
          · intro b hb
            rw [List.find?_cons_of_pos _ (by simp [herr])] at hb
            have hbb : bid = b := by simpa using hb
            subst hbb
            rw [hrun]
          · rw [hrun]
            simp
      | false =>
          have hlam' : ∀ b ∈ rest, lamGet (lamSet lam bid (oracle bid).lastAccess) b = none := by
            intro b hb
            have hne : b ≠ bid := fun he => hnd.1 (he ▸ hb)
            rw [lamGet_set_ne bid b _ hne]
            exact hlam b (List.mem_cons_of_mem _ hb)
          have hrest := ih (lamSet lam bid (oracle bid).lastAccess) hlam' hnd.2
            (fun b hb => hgrp b (List.mem_cons_of_mem _ hb))
          have hrun : processBundles oracle ps lam (bid :: rest)
              = ({ bundleId := bid, bundle := false,
                   valueIdList := (ps.filter fun p => p.bundle_id = bid).map
                     Parameter.value_id,
                   guiIdChanged := false, lastAccess := lamGet lam bid }
                  :: (processBundles oracle ps
                        (lamSet lam bid (oracle bid).lastAccess) rest).1,
                 (processBundles oracle ps
                    (lamSet lam bid (oracle bid).lastAccess) rest).2.map
                   fun vs => mergeVals (oracle bid) ++ vs) := by
            simp only [processBundles, hg, Bool.false_eq_true, if_neg,
              herr]
            simp
          refine ⟨?_, ?_, ?_, ?_⟩
          · intro r hr
            rw [hrun] at hr
            rcases List.mem_cons.mp hr with h | h
            · subst h
              exact ⟨rfl, rfl, hget, rfl⟩
            · exact hrest.1 r h
          · intro hno
            have hr := hrest.2.1 fun b hb => hno b (List.mem_cons_of_mem _ hb)
            rw [hrun]
            constructor
            · simp [hr.1]
            · rw [hr.2, List.flatMap_cons]
              rfl
          · intro b hb
            rw [List.find?_cons_of_neg _ (by simp [herr])] at hb
            have hr := hrest.2.2.1 b hb
            rw [hrun, hr]
            rfl
          · rcases hrest.2.2.2 with ⟨n, hn⟩
            refine ⟨n + 1, ?_⟩
            rw [hrun]
            simp [hn]

/-- C2: `fetch_value` partitions the parameters by bundle id; on the
all-success path it issues exactly one request per distinct bundle id in
first-occurrence order and returns the per-bundle values merged in that
order, where a response entry lacking a `Value` key is silently skipped;
every request carries only its own bundle's value ids, the fixed flags
`Bundle = False` and `GuiIdChanged = False`, and a `None` last-access
cursor; and as soon as some bundle's response carries an error code or
error type, the whole read fails — `ParameterReadError` exactly when that
response's error message equals the known parameter-read message,
`FetchFailed` otherwise — with no partial result. -/
theorem c2_fetch_value_bundles (oracle : JVal → PVResponse) (ps : List Parameter) :
    (∀ r ∈ (fetch_value oracle ps).1,
        r.bundle = false ∧ r.guiIdChanged = false ∧ r.lastAccess = none
        ∧ r.valueIdList =
            (ps.filter fun p => p.bundle_id = r.bundleId).map Parameter.value_id)
    ∧ ((∀ b ∈ bundleKeys ps, hasError (oracle b) = false) →
        (fetch_value oracle ps).1.map PVRequest.bundleId = bundleKeys ps
        ∧ (fetch_value oracle ps).2
            = .ok ((bundleKeys ps).flatMap fun b =>
                (oracle b).values.filterMap fun v =>
                  v.value.map fun x => ⟨v.valueId, x, v.state⟩))
    ∧ (∀ b, (bundleKeys ps).find? (fun b' => hasError (oracle b')) = some b →
        (fetch_value oracle ps).2
          = .error (if (oracle b).errorMessage = some ERROR_READ_PARAMETER
              then .parameterRead else .fetchFailed)) := by
  have hspec := processBundles_spec oracle ps (bundleKeys ps) (initLastAccess ps)
    (fun b _ => lamGet_of_all_none _ (initLastAccess_val ps) b)
    (bundleKeys_nodup ps)
    (by
      intro b hb
      rcases List.mem_map.mp ((mem_bundleKeys ps b).mp hb) with ⟨p, hp, hpb⟩
      intro hnil
      have : p ∈ ps.filter fun p => p.bundle_id = b :=
        List.mem_filter.mpr ⟨hp, by simp [hpb]⟩
      rw [hnil] at this
      simp at this)
  unfold fetch_value
  refine ⟨hspec.1, fun h => ⟨(hspec.2.1 h).1, ?_⟩, fun b hb => ?_⟩
  · rw [(hspec.2.1 h).2]
    rfl
  · rw [hspec.2.2.1 b hb]
    rfl

/-- C2 witness: with bundles `{"1000": [A, B], "2000": [C]}` and an
all-success oracle, exactly two requests are issued — one per distinct
bundle id, each carrying only that bundle's value ids and a `None`
cursor — and the merged values skip the entry lacking a `Value` key; with
an oracle whose second bundle errors, the whole read fails with
`FetchFailed` even though the first bundle succeeded. -/
theorem c2_witness :
    (fetch_value
        (fun _ => { errorCode := none, errorType := none, errorMessage := none,
                    values := [⟨.num 10, some (.num 7), .num 0⟩,
                               ⟨.num 11, none, .num 0⟩],
                    lastAccess := some (.str "c") })
        [{ value_id := 10, name := "A", parent := none, parameter_id := .null,
           bundle_id := .str "1000", read_only := .bool true, kind := .simple },
         { value_id := 11, name := "B", parent := none, parameter_id := .null,
           bundle_id := .str "1000", read_only := .bool true, kind := .simple },
         { value_id := 12, name := "C", parent := none, parameter_id := .null,
           bundle_id := .str "2000", read_only := .bool true, kind := .simple }]).1.map
        PVRequest.bundleId = [.str "1000", .str "2000"]
    ∧ (∀ r ∈ (fetch_value
        (fun _ => { errorCode := none, errorType := none, errorMessage := none,
                    values := [⟨.num 10, some (.num 7), .num 0⟩,
                               ⟨.num 11, none, .num 0⟩],
                    lastAccess := some (.str "c") })
        [{ value_id := 10, name := "A", parent := none, parameter_id := .null,
           bundle_id := .str "1000", read_only := .bool true, kind := .simple },
         { value_id := 11, name := "B", parent := none, parameter_id := .null,
           bundle_id := .str "1000", read_only := .bool true, kind := .simple },
         { value_id := 12, name := "C", parent := none, parameter_id := .null,
           bundle_id := .str "2000", read_only := .bool true, kind := .simple }]).1,
        r.lastAccess = none)
    ∧ (fetch_value
        (fun b => if b = .str "2000" then
            { errorCode := some "90", errorType := none,
              errorMessage := some "other", values := [],
              lastAccess := none }
          else
            { errorCode := none, errorType := none, errorMessage := none,
              values := [⟨.num 10, some (.num 7), .num 0⟩],
              lastAccess := none })
        [{ value_id := 10, name := "A", parent := none, parameter_id := .null,
           bundle_id := .str "1000", read_only := .bool true, kind := .simple },
         { value_id := 12, name := "C", parent := none, parameter_id := .null,
           bundle_id := .str "2000", read_only := .bool true, kind := .simple }]).2
      = .error .fetchFailed := by
  refine ⟨?_, ?_, ?_⟩
  · exact (c2_fetch_value_bundles _ _).2.1 (by decide) |>.1
  · intro r hr
    exact ((c2_fetch_value_bundles _ _).1 r hr).2.2.1
  · have h := (c2_fetch_value_bundles
      (fun b => if b = .str "2000" then
          { errorCode := some "90", errorType := none,
            errorMessage := some "other", values := [],
            lastAccess := none }
        else
          { errorCode := none, errorType := none, errorMessage := none,
            values := [⟨.num 10, some (.num 7), .num 0⟩],
            lastAccess := none })
      [{ value_id := 10, name := "A", parent := none, parameter_id := .null,
         bundle_id := .str "1000", read_only := .bool true, kind := .simple },
       { value_id := 12, name := "C", parent := none, parameter_id := .null,
         bundle_id := .str "2000", read_only := .bool true, kind := .simple }]).2.2
      (.str "2000") (by decide)
    rw [h]
    decide

/-- C10: in every `fetch_value` call the last-access map is local and
freshly `None`-initialized and each distinct bundle id is requested at
most once (in first-occurrence order), so every issued
`GetParameterValues` request carries a `None` last-access cursor, and no
cursor from any response is ever carried into another request. -/
theorem c10_last_access_cursor (oracle : JVal → PVResponse) (ps : List Parameter) :
    (∀ r ∈ (fetch_value oracle ps).1, r.lastAccess = none)
    ∧ ((fetch_value oracle ps).1.map PVRequest.bundleId).Nodup
    ∧ (∃ n, (fetch_value oracle ps).1.map PVRequest.bundleId
          = (bundleKeys ps).take n) := by
  have hspec := processBundles_spec oracle ps (bundleKeys ps) (initLastAccess ps)
    (fun b _ => lamGet_of_all_none _ (initLastAccess_val ps) b)
    (bundleKeys_nodup ps)
    (by
      intro b hb
      rcases List.mem_map.mp ((mem_bundleKeys ps b).mp hb) with ⟨p, hp, hpb⟩
      intro hnil
      have : p ∈ ps.filter fun p => p.bundle_id = b :=
        List.mem_filter.mpr ⟨hp, by simp [hpb]⟩
      rw [hnil] at this
      simp at this)
  unfold fetch_value
  refine ⟨fun r hr => (hspec.1 r hr).2.2.1, ?_, hspec.2.2.2⟩
  rcases hspec.2.2.2 with ⟨n, hn⟩
  rw [hn]
  exact (bundleKeys_nodup ps).sublist (List.take_sublist n _)

/-- C10 witness: a concrete two-bundle fetch issues requests whose
last-access cursors are all `None`, with pairwise-distinct bundle ids
forming a prefix of the key order. -/
theorem c10_witness :
    (∀ r ∈ (fetch_value
        (fun _ => { errorCode := none, errorType := none, errorMessage := none,
                    values := [], lastAccess := some (.str "cursor") })
        [{ value_id := 1, name := "A", parent := none, parameter_id := .null,
           bundle_id := .str "7000", read_only := .bool true, kind := .simple },
         { value_id := 2, name := "B", parent := none, parameter_id := .null,
           bundle_id := .str "8000", read_only := .bool true, kind := .simple }]).1,
        r.lastAccess = none)
    ∧ ((fetch_value
        (fun _ => { errorCode := none, errorType := none, errorMessage := none,
                    values := [], lastAccess := some (.str "cursor") })
        [{ value_id := 1, name := "A", parent := none, parameter_id := .null,
           bundle_id := .str "7000", read_only := .bool true, kind := .simple },
         { value_id := 2, name := "B", parent := none, parameter_id := .null,
           bundle_id := .str "8000", read_only := .bool true, kind := .simple }]).1.map
        PVRequest.bundleId).Nodup := by
  refine ⟨fun r hr => (c10_last_access_cursor _ _).1 r hr,
          (c10_last_access_cursor _ _).2.1⟩

/-! ## C6 — display-name derivation -/

/-- The separator token `"---"` occurs somewhere in the character list. -/
def hasTriple : List Char → Bool
  | '-' :: '-' :: '-' :: _ => true
  | _ :: rest => hasTriple rest
  | [] => false

theorem hasTriple_tail (c : Char) (rest : List Char)
    (h : hasTriple (c :: rest) = false) : hasTriple rest = false := by
  by_cases htrip : c = '-' ∧ ∃ r1, rest = '-' :: '-' :: r1
  · rcases htrip with ⟨hc, r1, hr⟩
    subst hc; subst hr
    simp [hasTriple] at h
  · rw [hasTriple.eq_2 c rest (fun tail hc hr => htrip ⟨hc, tail, hr⟩)] at h
    exact h

/-- Scanning a separator-free remainder adds no further split. -/
theorem splitDashAux_no : ∀ (cs acc : List Char) (n : Nat),
    hasTriple cs = false → splitDashAux n cs acc = [acc.reverse ++ cs] := by
  intro cs
  induction cs with
  | nil => intro acc n h; simp [splitDashAux]
  | cons c rest ih =>
      intro acc n h
      have hne : ∀ (n1 : Nat) (r1 : List Char),
          n = n1 + 1 → c = '-' → rest = '-' :: '-' :: r1 → False := by
        intro n1 r1 hn hc hr
        subst hc; subst hr
        simp [hasTriple] at h
      rw [splitDashAux.eq_2 n acc c rest hne,
          ih (c :: acc) n (hasTriple_tail c rest h)]
      simp

/-- With splits remaining, the first `"---"` occurrence splits the scan:
the prefix `x` (which, even extended by two dashes, contains no `"---"`)
becomes one segment and scanning resumes after the three separator
characters. -/
theorem splitDashAux_sep : ∀ (x acc y : List Char) (n : Nat),
    hasTriple (x ++ ['-', '-']) = false →
    splitDashAux (n + 1) (x ++ '-' :: '-' :: '-' :: y) acc
      = (acc.reverse ++ x) :: splitDashAux n y [] := by
  intro x
  induction x with
  | nil => intro acc y n h; simp [splitDashAux]
  | cons c x' ih =>
      intro acc y n h
      have hne : ∀ (n1 : Nat) (r1 : List Char),
          n + 1 = n1 + 1 → c = '-' → x' ++ '-' :: '-' :: '-' :: y = '-' :: '-' :: r1 →
            False := by
        intro n1 r1 hn hc hr
        subst hc
        cases x' with
        | nil => simp [hasTriple] at h
        | cons d x'' =>
            injection hr with h1 h2
            subst h1
            cases x'' with
            | nil => simp [hasTriple] at h
            | cons e x3 =>
                injection h2 with h3 h4
                subst h3
                simp [hasTriple] at h
      rw [show (c :: x') ++ '-' :: '-' :: '-' :: y
            = c :: (x' ++ '-' :: '-' :: '-' :: y) from rfl,
          splitDashAux.eq_2 (n + 1) acc c _ hne,
          ih (c :: acc) y n (hasTriple_tail c _ (by simpa using h))]
      simp

/-- Reassembling a string from its own character data. -/
theorem string_mk_data (s : String) : String.mk s.data = s := by
  cases s
  rfl

/-- A name containing no `"---"` does not split. -/
theorem pySplitDash2_no (name : String) (h : hasTriple name.data = false) :
    pySplitDash2 name = [name] := by
  rw [pySplitDash2, splitDashAux_no name.data [] 2 h]
  simp [string_mk_data]

/-- A name of the form `a ++ "---" ++ b`, with no `"---"` in `a` (even
extended by two dashes) nor in `b`, splits into exactly `[a, b]` under
`split(SPLIT, 2)`. -/
theorem pySplitDash2_sep (a b : String)
    (ha : hasTriple (a.data ++ ['-', '-']) = false)
    (hb : hasTriple b.data = false) :
    pySplitDash2 (a ++ "---" ++ b) = [a, b] := by
  have hdata : (a ++ "---" ++ b).data = a.data ++ '-' :: '-' :: '-' :: b.data := by
    rw [String.data_append, String.data_append,
        show ("---" : String).data = ['-', '-', '-'] from rfl,
        List.append_assoc]
    rfl
  rw [pySplitDash2, hdata, splitDashAux_sep a.data [] b.data 1 ha,
      splitDashAux_no b.data [] 1 hb]
  simp [string_mk_data]

/-- A separator-free remainder yields a single segment. -/
theorem splitCharAux_no (sep : Char) : ∀ (cs acc : List Char), sep ∉ cs →
    splitCharAux sep cs acc = [acc.reverse ++ cs] := by
  intro cs
  induction cs with
  | nil => intro acc h; simp [splitCharAux]
  | cons c rest ih =>
      intro acc h
      simp only [List.mem_cons, not_or] at h
      have hcs : ¬ c = sep := fun hc => h.1 hc.symm
      simp only [splitCharAux]
      rw [if_neg hcs, ih _ h.2]
      simp

/-- The first separator occurrence ends the current segment. -/
theorem splitCharAux_sep (sep : Char) : ∀ (x acc y : List Char), sep ∉ x →
    splitCharAux sep (x ++ sep :: y) acc
      = (acc.reverse ++ x) :: splitCharAux sep y [] := by
  intro x
  induction x with
  | nil => intro acc y h; simp [splitCharAux]
  | cons c x' ih =>
      intro acc y h
      simp only [List.mem_cons, not_or] at h
      have hcs : ¬ c = sep := fun hc => h.1 hc.symm
      simp only [List.cons_append, splitCharAux, List.append_eq]
      rw [if_neg hcs, ih _ _ h.2]
      simp

/-- C6 counterexample: for the raw name `"A_B_C---X"` (first part carrying
two underscores) with no localization loaded, the code derives `"B X"` —
the *second* `"_"`-segment of the first part — whereas the claim's
`_`-suffix segment of `"A_B_C"` is `"C"`, which would give `"C X"`. -/
theorem c6_counterexample :
    deriveName none "A_B_C---X" = some "B X"
    ∧ (pySplitUnd "A_B_C").getLast? = some "C"
    ∧ some "B X" ≠ some ("C" ++ " " ++ "X") := by
  refine ⟨by decide, by decide, by decide⟩

/-- C6 (amended): display-name derivation over a regional mapping (or no
mapping at all).  For a raw name `a ++ "---" ++ b` that splits into exactly
two parts: when `a` has no underscore, the name is
`localize a ++ " " ++ localize b`; when the first part is `c ++ "_" ++ e`
(one underscore) or `c ++ "_" ++ e ++ "_" ++ t` (more), the localization
key is `e`, the *second* `"_"`-segment — the segment right after the first
underscore, not the `_`-suffix.  A name with no separator localizes whole.
Keys absent from the mapping (and all keys when no mapping is loaded) pass
through unchanged. -/
theorem c6_display_name :
    (∀ (m : Option (List (String × String))) (a b x y : String),
        hasTriple (a.data ++ ['-', '-']) = false →
        hasTriple b.data = false →
        '_' ∉ a.data →
        replace_with_localized_text (m.map PResult.parsed) a = some x →
        replace_with_localized_text (m.map PResult.parsed) b = some y →
        deriveName (m.map PResult.parsed) (a ++ "---" ++ b)
          = some (x ++ " " ++ y))
    ∧ (∀ (m : Option (List (String × String))) (c e b x y : String),
        hasTriple ((c ++ "_" ++ e).data ++ ['-', '-']) = false →
        hasTriple b.data = false →
        '_' ∉ c.data → '_' ∉ e.data →
        replace_with_localized_text (m.map PResult.parsed) e = some x →
        replace_with_localized_text (m.map PResult.parsed) b = some y →
        deriveName (m.map PResult.parsed) (c ++ "_" ++ e ++ "---" ++ b)
          = some (x ++ " " ++ y))
    ∧ (∀ (m : Option (List (String × String))) (c e t b x y : String),
        hasTriple ((c ++ "_" ++ e ++ "_" ++ t).data ++ ['-', '-']) = false →
        hasTriple b.data = false →
        '_' ∉ c.data → '_' ∉ e.data →
        replace_with_localized_text (m.map PResult.parsed) e = some x →
        replace_with_localized_text (m.map PResult.parsed) b = some y →
        deriveName (m.map PResult.parsed) (c ++ "_" ++ e ++ "_" ++ t ++ "---" ++ b)
          = some (x ++ " " ++ y))
    ∧ (∀ (m : Option (List (String × String))) (name : String),
        hasTriple name.data = false →
        deriveName (m.map PResult.parsed) name
          = replace_with_localized_text (m.map PResult.parsed) name)
    ∧ (∀ (m : List (String × String)) (t : String), (∀ kv ∈ m, kv.1 ≠ t) →
        replace_with_localized_text (some (.parsed m)) t = some t)
    ∧ (∀ t : String, replace_with_localized_text none t = some t) := by
  have hkey_no : ∀ a : String, '_' ∉ a.data →
      (if countUnd a > 0 then (pySplitUnd a).getD 1 "" else a) = a := by
    intro a ha
    rw [if_neg]
    simp [countUnd, List.count_eq_zero.mpr ha]
  have hdata1 : ∀ c e : String, (c ++ "_" ++ e).data = c.data ++ '_' :: e.data := by
    intro c e
    rw [String.data_append, String.data_append,
        show ("_" : String).data = ['_'] from rfl, List.append_assoc]
    rfl
  have hkey_one : ∀ c e : String, '_' ∉ c.data → '_' ∉ e.data →
      (if countUnd (c ++ "_" ++ e) > 0
        then (pySplitUnd (c ++ "_" ++ e)).getD 1 "" else (c ++ "_" ++ e)) = e := by
    intro c e hc he
    rw [if_pos]
    · rw [pySplitUnd, hdata1, splitCharAux_sep '_' c.data [] e.data hc,
          splitCharAux_no '_' e.data [] he]
      simp [string_mk_data]
    · simp [countUnd, hdata1, List.count_append]
  have hkey_two : ∀ c e t : String, '_' ∉ c.data → '_' ∉ e.data →
      (if countUnd (c ++ "_" ++ e ++ "_" ++ t) > 0
        then (pySplitUnd (c ++ "_" ++ e ++ "_" ++ t)).getD 1 ""
        else (c ++ "_" ++ e ++ "_" ++ t)) = e := by
    intro c e t hc he
    have hdata2 : (c ++ "_" ++ e ++ "_" ++ t).data
        = c.data ++ '_' :: (e.data ++ '_' :: t.data) := by
      rw [String.data_append, String.data_append, String.data_append,
          String.data_append, show ("_" : String).data = ['_'] from rfl]
      simp
    rw [if_pos]
    · rw [pySplitUnd, hdata2, splitCharAux_sep '_' c.data [] _ hc,
          splitCharAux_sep '_' e.data [] t.data he]
      simp
    · simp [countUnd, hdata2, List.count_append]
  refine ⟨?_, ?_, ?_, ?_, ?_, ?_⟩
  · intro m a b x y hda hdb hund hx hy
    simp only [deriveName, pySplitDash2_sep a b hda hdb, hkey_no a hund, hx, hy]
  · intro m c e b x y hda hdb hc he hx hy
    simp only [deriveName, pySplitDash2_sep (c ++ "_" ++ e) b hda hdb,
      hkey_one c e hc he, hx, hy]
  · intro m c e t b x y hda hdb hc he hx hy
    simp only [deriveName, pySplitDash2_sep (c ++ "_" ++ e ++ "_" ++ t) b hda hdb,
      hkey_two c e t hc he, hx, hy]
  · intro m name h
    simp only [deriveName, pySplitDash2_no name h]
  · intro m t hab
    simp only [replace_with_localized_text]
    cases hf : m.find? fun kv => kv.1 = t with
    | none => rfl
    | some kv =>
        exact absurd (by simpa using List.find?_some hf)
          (hab kv (List.mem_of_find?_eq_some hf))
  · intro t
    rfl

/-- C6 witness: with the mapping `[("B", "Warm"), ("X", "Water")]`, the
raw name `"A_B---X"` resolves to `"Warm Water"`; the raw name `"Plain"`
(no separator) passes through unchanged since it is not a key. -/
theorem c6_witness :
    deriveName (some (.parsed [("B", "Warm"), ("X", "Water")])) "A_B---X"
      = some ("Warm" ++ " " ++ "Water")
    ∧ deriveName (some (.parsed [("B", "Warm"), ("X", "Water")])) "Plain"
      = some "Plain" := by
  constructor
  · exact c6_display_name.2.1 (some [("B", "Warm"), ("X", "Water")])
      "A" "B" "X" "Warm" "Water" (by decide) (by decide) (by decide) (by decide)
      (by decide) (by decide)
  · have h := c6_display_name.2.2.2.1 (some [("B", "Warm"), ("X", "Water")])
      "Plain" (by decide)
    simp only [Option.map_some'] at h
    rw [h]
    decide

/-! ## C8 — localization extraction and the JSON repair loop -/

theorem splitCharAux_ne_nil (sep : Char) :
    ∀ (cs acc : List Char), splitCharAux sep cs acc ≠ [] := by
  intro cs
  induction cs with
  | nil => intro acc; simp [splitCharAux]
  | cons c rest ih =>
      intro acc
      simp only [splitCharAux]
      split
      · simp
      · exact ih _

/-- Segments produced by single-character splitting never contain the
separator. -/
theorem splitCharAux_free (sep : Char) :
    ∀ (cs acc : List Char), sep ∉ acc →
      ∀ l ∈ splitCharAux sep cs acc, sep ∉ l := by
  intro cs
  induction cs with
  | nil =>
      intro acc hacc l hl
      simp only [splitCharAux, List.mem_singleton] at hl
      subst hl
      simpa using hacc
  | cons c rest ih =>
      intro acc hacc l hl
      simp only [splitCharAux] at hl
      by_cases hc : c = sep
      · rw [if_pos hc] at hl
        rcases List.mem_cons.mp hl with h | h
        · subst h; simpa using hacc
        · exact ih [] (by simp) l h
      · rw [if_neg hc] at hl
        refine ih (c :: acc) ?_ l hl
        intro hm
        rcases List.mem_cons.mp hm with h | h
        · exact hc h.symm
        · exact hacc h

/-- Lines of a split never contain `'\n'`. -/
theorem splitNL_free (s : String) : ∀ l ∈ splitNL s, '\n' ∉ l.data := by
  intro l hl
  rcases List.mem_map.mp hl with ⟨cs, hcs, hmk⟩
  have h := splitCharAux_free '\n' s.data [] (by simp) cs hcs
  rw [← hmk]
  exact h

theorem splitNL_ne_nil (s : String) : splitNL s ≠ [] := by
  rw [splitNL]
  intro h
  exact splitCharAux_ne_nil '\n' s.data [] (by simpa using h)

theorem joinNL_cons_ne (x : String) (l : List String) (h : l ≠ []) :
    joinNL (x :: l) = x ++ "\n" ++ joinNL l := by
  cases l with
  | nil => exact absurd rfl h
  | cons y rest => rw [joinNL]

/-- Splitting a rejoined, newline-free, nonempty line list recovers it. -/
theorem splitNL_joinNL : ∀ ls : List String, ls ≠ [] →
    (∀ l ∈ ls, '\n' ∉ l.data) → splitNL (joinNL ls) = ls := by
  intro ls
  induction ls with
  | nil => intro h; exact absurd rfl h
  | cons x rest ih =>
      intro _ hfree
      cases rest with
      | nil =>
          rw [joinNL, splitNL,
              splitCharAux_no '\n' x.data [] (hfree x (List.mem_cons_self x []))]
          simp [string_mk_data]
      | cons y rest' =>
          rw [joinNL_cons_ne x (y :: rest') (by simp)]
          have hdata : (x ++ "\n" ++ joinNL (y :: rest')).data
              = x.data ++ '\n' :: (joinNL (y :: rest')).data := by
            rw [String.data_append, String.data_append,
                show ("\n" : String).data = ['\n'] from rfl, List.append_assoc]
            rfl
          rw [splitNL, hdata,
              splitCharAux_sep '\n' x.data [] _ (hfree x (List.mem_cons_self x _))]
          have hrest := ih (by simp)
            (fun l hl => hfree l (List.mem_cons_of_mem x hl))
          rw [splitNL] at hrest
          simp [string_mk_data, hrest]

/-- One repair step leaves the line list a sublist of the current one, or
collapses the text to the single empty line. -/
theorem stripLine_cases (text : String) (lineno : Nat) :
    (splitNL (stripLine text lineno)).Sublist (splitNL text)
    ∨ splitNL (stripLine text lineno) = [""] := by
  have hsub : (if lineno - 1 < (splitNL text).length
      then (splitNL text).eraseIdx (lineno - 1)
      else splitNL text).Sublist (splitNL text) := by
    split
    · exact List.eraseIdx_sublist _ _
    · exact List.Sublist.refl _
  rcases hline : (if lineno - 1 < (splitNL text).length
      then (splitNL text).eraseIdx (lineno - 1) else splitNL text) with _ | ⟨z, zs⟩
  · right
    simp only [stripLine]
    rw [hline]
    decide
  · left
    have hfree : ∀ l ∈ (z :: zs), '\n' ∉ l.data := by
      intro l hlmem
      exact splitNL_free text l (hsub.subset (hline ▸ hlmem))
    simp only [stripLine]
    rw [hline, splitNL_joinNL (z :: zs) (by simp) hfree]
    exact hline ▸ hsub

/-- The text handed back on exhaustion always arises from the input by
whole-line removals. -/
theorem try_unparsed_lines (parse : String → Except Nat (List (String × String))) :
    ∀ (n : Nat) (text t' : String),
      try_and_parse parse text n = .unparsed t' →
      (splitNL t').Sublist (splitNL text) ∨ splitNL t' = [""] := by
  intro n
  induction n with
  | zero =>
      intro text t' h
      simp only [try_and_parse] at h
      injection h with h
      subst h
      exact Or.inl (List.Sublist.refl _)
  | succ n ih =>
      intro text t' h
      simp only [try_and_parse] at h
      cases hp : parse text with
      | ok m => rw [hp] at h; cases h
      | error lineno =>
          rw [hp] at h
          rcases ih (stripLine text lineno) t' h with hs | he
          · rcases stripLine_cases text lineno with h2 | h2
            · exact Or.inl (hs.trans h2)
            · rw [h2] at hs
              rcases List.sublist_singleton.mp hs with hnil | hone
              · exact absurd hnil (splitNL_ne_nil t')
              · exact Or.inr hone
          · exact Or.inr he

/-- An always-failing parse on the empty string loops on the empty string. -/
theorem try_fail_empty : ∀ n : Nat,
    try_and_parse (fun _ => Except.error 1) "" n = .unparsed "" := by
  intro n
  induction n with
  | zero => rfl
  | succ n ih =>
      have hstep : try_and_parse (fun _ => Except.error 1) "" (n + 1)
          = try_and_parse (fun _ => Except.error 1) (stripLine "" 1) n := rfl
      rw [hstep, show stripLine "" 1 = "" from by decide]
      exact ih

/-- One successful parse returns the mapping (line 232). -/
theorem try_and_parse_ok (parse : String → Except Nat (List (String × String)))
    (text : String) (m : List (String × String)) (n : Nat)
    (h : parse text = .ok m) :
    try_and_parse parse text (n + 1) = .parsed m := by
  simp only [try_and_parse, h]

/-- One failed parse strips the reported line and retries with a
decremented budget (lines 233-242). -/
theorem try_and_parse_step (parse : String → Except Nat (List (String × String)))
    (text : String) (lineno n : Nat) (h : parse text = .error lineno) :
    try_and_parse parse text (n + 1)
      = try_and_parse parse (stripLine text lineno) n := by
  simp only [try_and_parse, h]

/-- C8 counterexample: with the embedded object text `"a\nb"` and a parse
that fails at line 1 on every attempt, all 1000 attempts fail and
extraction returns the *fully line-stripped* text `""` — not the original
unparsed text `"a\nb"` the claim promises as the last resort. -/
theorem c8_counterexample :
    extract_messages_json (fun _ => some "a\nb") (fun _ => Except.error 1)
        "var x = 1" = some (.unparsed "")
    ∧ some (PResult.unparsed "") ≠ some (PResult.unparsed "a\nb") := by
  constructor
  · have h0 : extract_messages_json (fun _ => some "a\nb")
        (fun _ => Except.error 1) "var x = 1"
        = some (try_and_parse (fun _ => Except.error 1) "a\nb" 1000) := by
      simp only [extract_messages_json]
    rw [h0, show (1000 : Nat) = 999 + 1 from rfl,
        try_and_parse_step (fun _ => Except.error 1) "a\nb" 1 999 rfl,
        show stripLine "a\nb" 1 = "b" from by decide,
        show (999 : Nat) = 998 + 1 from rfl,
        try_and_parse_step (fun _ => Except.error 1) "b" 1 998 rfl,
        show stripLine "b" 1 = "" from by decide, try_fail_empty 998]
  · decide

/-- C8 (amended): localization extraction.  Text with no recognizable
messages marker yields no mapping, leaves `regional` untouched, and (on a
fresh client with no regional mapping) all lookups are the identity.  A
parse failure removes exactly the line the parser's error location
reports and retries with a decremented budget, starting from 1000; in
particular a text whose repaired version parses is extracted as its parsed
mapping within the bound.  When the budget is exhausted, the *remaining*
text — the input with zero or more whole lines removed (possibly collapsed
to empty) — is returned unparsed as a non-mapping last resort. -/
theorem c8_extraction_repair :
    (∀ (reSearch : String → Option String)
        (parse : String → Except Nat (List (String × String))) (text : String),
        reSearch text = none →
        extract_messages_json reSearch parse text = none
        ∧ (∀ reg₀ : Option PResult,
            load_localized_json reg₀ (extract_messages_json reSearch parse text)
              = reg₀)
        ∧ (∀ t, replace_with_localized_text none t = some t))
    ∧ (∀ (parse : String → Except Nat (List (String × String)))
        (text : String) (m : List (String × String)) (n : Nat),
        parse text = .ok m → try_and_parse parse text (n + 1) = .parsed m)
    ∧ (∀ (parse : String → Except Nat (List (String × String)))
        (text : String) (lineno n : Nat),
        parse text = .error lineno →
        try_and_parse parse text (n + 1)
          = try_and_parse parse (stripLine text lineno) n)
    ∧ (∀ (reSearch : String → Option String)
        (parse : String → Except Nat (List (String × String)))
        (t0 text : String) (lineno : Nat) (m : List (String × String)),
        reSearch t0 = some text →
        parse text = .error lineno →
        parse (stripLine text lineno) = .ok m →
        extract_messages_json reSearch parse t0 = some (.parsed m))
    ∧ (∀ (parse : String → Except Nat (List (String × String))) (text : String),
        try_and_parse parse text 0 = .unparsed text)
    ∧ (∀ (parse : String → Except Nat (List (String × String)))
        (n : Nat) (text t' : String),
        try_and_parse parse text n = .unparsed t' →
        (splitNL t').Sublist (splitNL text) ∨ splitNL t' = [""]) := by
  refine ⟨?_, try_and_parse_ok, try_and_parse_step, ?_,
          fun parse text => rfl, try_unparsed_lines⟩
  · intro reSearch parse text h
    refine ⟨?_, ?_, fun t => rfl⟩
    · simp [extract_messages_json, h]
    · intro reg₀
      simp [extract_messages_json, h, load_localized_json]
  · intro reSearch parse t0 text lineno m h0 h1 h2
    have he : extract_messages_json reSearch parse t0
        = some (try_and_parse parse text 1000) := by
      simp only [extract_messages_json, h0]
    rw [he, show (1000 : Nat) = 999 + 1 from rfl,
        try_and_parse_step parse text lineno 999 h1,
        show (999 : Nat) = 998 + 1 from rfl,
        try_and_parse_ok parse (stripLine text lineno) m 998 h2]

/-- C8 witness: a two-line object whose first attempt fails at line 2 and
whose line-stripped version parses is extracted as the parsed mapping; a
text with no marker extracts to no mapping and fresh-client lookups are
the identity. -/
theorem c8_witness :
    extract_messages_json (fun _ => some "good\nbad")
        (fun s => if s = "good\nbad" then Except.error 2 else Except.ok [("k", "v")])
        "input" = some (.parsed [("k", "v")])
    ∧ extract_messages_json (fun _ => none)
        (fun _ => Except.ok []) "no marker here" = none
    ∧ replace_with_localized_text none "AnyKey" = some "AnyKey" := by
  refine ⟨?_, ?_, ?_⟩
  · exact c8_extraction_repair.2.2.2.1 (fun _ => some "good\nbad")
      (fun s => if s = "good\nbad" then Except.error 2 else Except.ok [("k", "v")])
      "input" "good\nbad" 2 [("k", "v")] rfl (by decide) (by decide)
  · exact (c8_extraction_repair.1 (fun _ => none) (fun _ => Except.ok [])
      "no marker here" rfl).1
  · exact (c8_extraction_repair.1 (fun _ => none) (fun _ => Except.ok [])
      "no marker here" rfl).2.2 "AnyKey"

/-! ## C5 — expert-mode descriptor extraction -/

theorem getField_setField (k : String) (v : JVal) :
    ∀ fs : List (String × JVal), getField (setField fs k v) k = some v := by
  intro fs
  induction fs with
  | nil => simp [setField, getField]
  | cons e rest ih =>
      rcases e with ⟨k', v'⟩
      by_cases he : k' = k
      · simp [setField, he, getField]
      · simp only [setField, if_neg he]
        unfold getField at ih ⊢
        rw [List.find?_cons_of_neg _ (by simpa using he)]
        exact ih

/-- The dict-branch key step of the traversal, for an arbitrary field
value. -/
theorem traverseFields_cons (b : JVal) (tb : List JVal) (k : String) (v : JVal)
    (rest : List (String × JVal)) :
    traverseFields b tb ((k, v) :: rest)
      = (if k = "ParameterDescriptors" then
          match v with
          | .arr items => items.map (objSetBundle b) ++ traverseMutItems b tb items
          | w => traverse w
        else traverse v) ++ traverseFields b tb rest := by
  cases v <;> simp [traverseFields]

/-- The mutated-dict key step of the traversal, for an arbitrary field
value. -/
theorem traverseFieldsMut_cons (b : JVal) (tb : List JVal) (k : String)
    (v : JVal) (rest : List (String × JVal)) :
    traverseFieldsMut b tb ((k, v) :: rest)
      = if k = "BundleId" then tb ++ traverseFields b tb rest
        else
          (if k = "ParameterDescriptors" then
            match v with
            | .arr items =>
                items.map (objSetBundle b) ++ traverseMutItems b tb items
            | w => traverse w
          else traverse v) ++ traverseFieldsMut b tb rest := by
  cases v <;> simp [traverseFieldsMut]

theorem bundleOf_setField (b : JVal) (fs : List (String × JVal)) :
    bundleOf (setField fs "BundleId" b) = b := by
  rw [bundleOf, getField_setField]
  rfl

/-- The key loop over the mutated field list, expressed over the original
fields: `traverseFields` of `setField fs "BundleId" b` is
`traverseFieldsMut` of `fs`. -/
theorem traverseFields_setField (b : JVal) :
    ∀ fs : List (String × JVal),
      traverseFields b (traverse b) (setField fs "BundleId" b)
        = traverseFieldsMut b (traverse b) fs := by
  intro fs
  induction fs with
  | nil =>
      rw [show setField [] "BundleId" b = [("BundleId", b)] from rfl,
          traverseFields_cons]
      simp [traverseFields, traverseFieldsMut]
  | cons e rest ih =>
      rcases e with ⟨k, v⟩
      by_cases hk : k = "BundleId"
      · subst hk
        rw [show setField (("BundleId", v) :: rest) "BundleId" b
              = ("BundleId", b) :: rest from by simp [setField],
            traverseFields_cons, traverseFieldsMut_cons]
        simp
      · rw [show setField ((k, v) :: rest) "BundleId" b
              = (k, v) :: setField rest "BundleId" b from by simp [setField, hk],
            traverseFields_cons, traverseFieldsMut_cons, if_neg hk, ih]

/-- The mutation semantics of the embedding: `traverseMut b (traverse b) d`
is literally the traversal of the descriptor with its `"BundleId"` set to
`b`, exactly what the Python generator does after the in-place
`descriptor["BundleId"] = bundleId` assignment. -/
theorem traverseMut_eq (b : JVal) :
    ∀ d : JVal, traverseMut b (traverse b) d = traverse (objSetBundle b d) := by
  intro d
  cases d with
  | obj fs =>
      rw [objSetBundle,
          show traverse (.obj (setField fs "BundleId" b))
            = traverseFields (bundleOf (setField fs "BundleId" b))
                (traverse (bundleOf (setField fs "BundleId" b)))
                (setField fs "BundleId" b) from by rw [traverse],
          bundleOf_setField, traverseFields_setField, traverseMut]
  | arr xs => simp [objSetBundle, traverseMut, traverse]
  | null => simp [objSetBundle, traverseMut, traverse]
  | bool bb => simp [objSetBundle, traverseMut, traverse]
  | str s => simp [objSetBundle, traverseMut, traverse]
  | num n => simp [objSetBundle, traverseMut, traverse]

/-- Traversal of the mutated descriptor array is traversal of the array of
mutated descriptors. -/
theorem traverseMutItems_eq (b : JVal) :
    ∀ items : List JVal,
      traverseMutItems b (traverse b) items
        = traverseItems (items.map (objSetBundle b)) := by
  intro items
  induction items with
  | nil => simp [traverseMutItems, traverseItems]
  | cons d rest ih =>
      simp only [traverseMutItems, List.map_cons, traverseItems]
      rw [traverseMut_eq, ih]

theorem traverseItems_flatMap : ∀ xs : List JVal,
    traverseItems xs = xs.flatMap traverse := by
  intro xs
  induction xs with
  | nil => simp [traverseItems]
  | cons x rest ih => rw [traverseItems, ih, List.flatMap_cons]

theorem traverseFields_flatMap (b : JVal) :
    ∀ l : List (String × JVal),
      traverseFields b (traverse b) l
        = l.flatMap (fun kv =>
            if kv.1 = "ParameterDescriptors" then
              match kv.2 with
              | .arr items =>
                  items.map (objSetBundle b)
                    ++ traverse (.arr (items.map (objSetBundle b)))
              | w => traverse w
            else traverse kv.2) := by
  intro l
  induction l with
  | nil => simp [traverseFields]
  | cons kv rest ih =>
      rcases kv with ⟨k, v⟩
      rw [traverseFields_cons, ih, List.flatMap_cons]
      by_cases hk : k = "ParameterDescriptors"
      · subst hk
        cases v with
        | arr items =>
            simp [traverseMutItems_eq,
              show traverse (.arr (items.map (objSetBundle b)))
                = traverseItems (items.map (objSetBundle b)) from by
                rw [traverse]]
        | obj fs => simp
        | null => simp
        | bool bb => simp
        | str s => simp
        | num n => simp
      · simp only [if_neg hk]

/-- The parent handed to `_map_parameter` is stored verbatim in the mapped
parameter. -/
theorem map_parameter_parent (p : Descriptor) (parent : Option String)
    (q : Parameter) (h : map_parameter p parent = some q) : q.parent = parent := by
  cases hu : p.unit with
  | none =>
      cases hl : p.listItems with
      | none =>
          simp only [map_parameter, hu, hl] at h
          injection h with h
          subst h
          rfl
      | some items =>
          simp only [map_parameter, hu, hl] at h
          injection h with h
          subst h
          rfl
  | some u =>
      cases u with
      | str s =>
          simp only [map_parameter, hu] at h
          repeat' split at h
          all_goals first
            | (injection h with h; subst h; rfl)
            | simp at h
      | null => simp [map_parameter, hu] at h
      | bool b => simp [map_parameter, hu] at h
      | num n => simp [map_parameter, hu] at h
      | obj fs => simp [map_parameter, hu] at h
      | arr xs => simp [map_parameter, hu] at h

/-- C5 counterexample: the tree
`{"BundleId": "7", "Inner": {"ParameterDescriptors": [{"ValueId": 1}]}}`
has its descriptor array on an object with no own `"BundleId"`, while the
*enclosing* object carries `"BundleId": "7"`.  Extraction stamps the
descriptor with `null`, not with the enclosing `"7"`: the ancestor bundle
id is not propagated, contradicting the claim's "same or an enclosing
object". -/
theorem c5_counterexample :
    extract_parameter_descriptors
        (.obj [("BundleId", .str "7"),
               ("Inner", .obj [("ParameterDescriptors",
                   .arr [.obj [("ValueId", .num 1)]])])])
      = [.obj [("ValueId", .num 1), ("BundleId", .null)]]
    ∧ getField [("ValueId", JVal.num 1), ("BundleId", JVal.null)] "BundleId"
        = some .null
    ∧ JVal.null ≠ JVal.str "7" := by
  refine ⟨?_, by decide, by decide⟩
  simp [extract_parameter_descriptors, traverse, traverseFields, traverseItems,
    traverseMut, traverseMutItems, traverseFieldsMut, bundleOf, getField,
    setField, objSetBundle]

/-- C5 (amended): expert-mode extraction discovers by recursive search
every `"ParameterDescriptors"` array anywhere in the tree, and stamps each
descriptor with the `"BundleId"` found on the object *directly holding*
the array (`null` when that object has none) — enclosing objects'
`"BundleId"` is not inherited: the structural equations below carry no
ancestor context into child traversals.  The collected descriptors are
then sorted by value id ascending and each is mapped with no parent-tab
name. -/
theorem c5_expert_extraction :
    (∀ fs : List (String × JVal),
        extract_parameter_descriptors (.obj fs)
          = fs.flatMap (fun kv =>
              if kv.1 = "ParameterDescriptors" then
                match kv.2 with
                | .arr items =>
                    items.map (objSetBundle (bundleOf fs))
                      ++ extract_parameter_descriptors
                          (.arr (items.map (objSetBundle (bundleOf fs))))
                | w => extract_parameter_descriptors w
              else extract_parameter_descriptors kv.2))
    ∧ (∀ xs : List JVal,
        extract_parameter_descriptors (.arr xs)
          = xs.flatMap extract_parameter_descriptors)
    ∧ (∀ b d, traverseMut b (traverse b) d = traverse (objSetBundle b d))
    ∧ (∀ desc : JVal,
        ((expertDescriptors desc).map valueIdKey).Sorted (· ≤ ·))
    ∧ (∀ (desc : JVal) (q : Parameter),
        some q ∈ expertParams desc → q.parent = none) := by
  refine ⟨?_, ?_, traverseMut_eq, ?_, ?_⟩
  · intro fs
    rw [extract_parameter_descriptors,
        show traverse (.obj fs)
          = traverseFields (bundleOf fs) (traverse (bundleOf fs)) fs from by
          rw [traverse],
        traverseFields_flatMap]
    rfl
  · intro xs
    rw [extract_parameter_descriptors,
        show traverse (.arr xs) = traverseItems xs from by rw [traverse],
        traverseItems_flatMap]
    rfl
  · intro desc
    have htrans : ∀ a b c : JVal,
        (fun a b => decide (valueIdKey a ≤ valueIdKey b)) a b →
        (fun a b => decide (valueIdKey a ≤ valueIdKey b)) b c →
        (fun a b => decide (valueIdKey a ≤ valueIdKey b)) a c := by
      intro a b c hab hbc
      simp only [decide_eq_true_eq] at *
      omega
    have htotal : ∀ a b : JVal,
        ((fun a b => decide (valueIdKey a ≤ valueIdKey b)) a b
          || (fun a b => decide (valueIdKey a ≤ valueIdKey b)) b a) := by
      intro a b
      simp only [Bool.or_eq_true, decide_eq_true_eq]
      omega
    have hpair := @List.sorted_mergeSort JVal
      (fun a b => decide (valueIdKey a ≤ valueIdKey b)) htrans htotal
      (extract_parameter_descriptors desc)
    rw [List.Sorted, List.pairwise_map]
    exact hpair.imp (by simp)
  · intro desc q hq
    rcases List.mem_map.mp hq with ⟨d, _, hd⟩
    rcases Option.bind_eq_some.mp (by simpa [map_parameter_j] using hd) with
      ⟨dd, _, hmap⟩
    exact map_parameter_parent dd none q hmap

/-- C5 witness: on a tree holding one descriptor array directly under the
root, extraction yields the descriptor stamped with `null`, sorting keeps
the single descriptor, and the mapped parameter carries no parent-tab
name. -/
theorem c5_witness :
    some ({ value_id := 3, name := "x", parent := none, parameter_id := .num 9,
            bundle_id := .null, read_only := .bool true,
            kind := ParamKind.simple } : Parameter)
        ∈ expertParams (.obj [("ParameterDescriptors",
            .arr [.obj [("ValueId", .num 3), ("Name", .str "x"),
                        ("ParameterId", .num 9)]])])
    ∧ ({ value_id := 3, name := "x", parent := none, parameter_id := .num 9,
         bundle_id := .null, read_only := .bool true,
         kind := ParamKind.simple } : Parameter).parent = none := by
  have hext : extract_parameter_descriptors
      (.obj [("ParameterDescriptors",
          .arr [.obj [("ValueId", .num 3), ("Name", .str "x"),
                      ("ParameterId", .num 9)]])])
      = [.obj [("ValueId", .num 3), ("Name", .str "x"),
               ("ParameterId", .num 9), ("BundleId", .null)]] := by
    simp [extract_parameter_descriptors, traverse, traverseFields,
      traverseItems, traverseMut, traverseMutItems, traverseFieldsMut,
      bundleOf, getField, setField, objSetBundle]
  have hsort : expertDescriptors (.obj [("ParameterDescriptors",
      .arr [.obj [("ValueId", .num 3), ("Name", .str "x"),
                  ("ParameterId", .num 9)]])])
      = [.obj [("ValueId", .num 3), ("Name", .str "x"),
               ("ParameterId", .num 9), ("BundleId", .null)]] := by
    rw [expertDescriptors, hext, List.mergeSort_singleton]
  have hmem : some ({ value_id := 3, name := "x", parent := none,
                      parameter_id := .num 9, bundle_id := .null,
                      read_only := .bool true,
                      kind := ParamKind.simple } : Parameter)
      ∈ expertParams (.obj [("ParameterDescriptors",
          .arr [.obj [("ValueId", .num 3), ("Name", .str "x"),
                      ("ParameterId", .num 9)]])]) := by
    rw [expertParams, hsort]
    simp [map_parameter_j, descOfJ, getField, lItemOfJ, map_parameter]
  exact ⟨hmem,
    c5_expert_extraction.2.2.2.2 _ _ hmem⟩

end Wolf
